import Mathlib

/-!
Shallow embedding of the analytics aggregation engine of the Materna
repository (`dashboard_methods.py`), together with proofs settling the
frozen claims about its specification.

Conventions of the embedding:
* Python `datetime` values are modelled as integers (`Int`); only their
  ordering matters to the aggregations.
* Python floats are idealised as exact rationals (`ℚ`); the two places
  where the code takes a square root (`corr`-style Pearson helpers) are
  idealised over the reals (`ℝ`).  `round(x, 3)` is modelled as
  `round (x * 1000) / 1000`; the model's round differs from Python's
  banker's rounding only at exact half-way ties, which no statement below
  exercises.
* Python dicts keyed by patient id are modelled as association lists with
  insert-or-replace update (`setk`), preserving dict semantics (a key is
  stored at most once; updating an existing key keeps its position).
* JSON maps (`input_features`, `output_predictions`, `pcb_results`) are
  association lists / lists of rows; `None`-able fields are `Option`s.
  Per `models.py`, `ModelFeatures.patient_id`, `ModelFeatures.date`,
  `LabTest.patient_id` and `LabTest.collection_date` are non-nullable,
  so they are plain fields here; `result_date`, `pcb_results`,
  `Patient.age` and `Patient.risk` are nullable.
-/

namespace Materna

/-- A feature/prediction snapshot (`ModelFeatures` in `models.py`). -/
structure ModelFeatures where
  patient_id : Int
  date : Int
  input_features : List (String × ℚ)
  output_predictions : Option (List (String × ℚ))
deriving DecidableEq

/-- One `{"name": ..., "level": ...}` row of a lab test's `pcb_results`. -/
structure PcbRow where
  name : String
  level : Option ℚ
deriving DecidableEq

/-- A lab test (`LabTest` in `models.py`). -/
structure LabTest where
  patient_id : Int
  status : String
  collection_date : Int
  result_date : Option Int
  pcb_results : Option (List PcbRow)
deriving DecidableEq

/-- A patient row (`Patient` in `models.py`), restricted to the fields
the analytics functions read. -/
structure Patient where
  id : Int
  age : Option Int
  risk : Option String
deriving DecidableEq

/-- The ten tracked contaminants (`PCB_KEYS` in `dashboard_methods.py`). -/
def PCB_KEYS : List String :=
  ["PCB_118", "PCB_138", "PCB_153", "PCB_180", "PCB_74",
   "PCB_99", "PCB_156", "PCB_170", "PCB_183", "PCB_187"]

/-- Lookup in a string-keyed association list (Python `dict.get`). -/
def lookupS : List (String × ℚ) → String → Option ℚ
  | [], _ => none
  | (k, v) :: rest, key => if k = key then some v else lookupS rest key

/-- Lookup in an int-keyed association list (Python `dict.get`). -/
def lookupA {α : Type} : List (Int × α) → Int → Option α
  | [], _ => none
  | (k, v) :: rest, key => if k = key then some v else lookupA rest key

/-- Insert-or-replace for an int-keyed association list (`d[k] = v`).
Replacing keeps the key's position; a fresh key is appended, matching
Python dict insertion order. -/
def setk {α : Type} : List (Int × α) → Int → α → List (Int × α)
  | [], key, v => [(key, v)]
  | (k, w) :: rest, key, v =>
      if k = key then (key, v) :: rest else (k, w) :: setk rest key v

/-- The keys of an association list. -/
def keysOf {α : Type} (l : List (Int × α)) : List Int := l.map (·.1)

/-- `mf.input_features.get(key)`. -/
def featGet (mf : ModelFeatures) (key : String) : Option ℚ :=
  lookupS mf.input_features key

/-- `(mf.output_predictions or {}).get(key)`. -/
def predLookup (mf : ModelFeatures) (key : String) : Option ℚ :=
  match mf.output_predictions with
  | some preds => lookupS preds key
  | none => none

/-- Mean of a list of rationals with the `if xs else 0.0` guard used
throughout the Python code. -/
def ratMean (l : List ℚ) : ℚ :=
  if l = [] then 0 else l.sum / l.length

/-- Python `int(q)`: truncation toward zero. -/
def intTrunc (q : ℚ) : Int := Int.tdiv q.num q.den

/-- Python `str.upper()` on one ASCII character. -/
def upChar (c : Char) : Char :=
  if 'a' ≤ c ∧ c ≤ 'z' then Char.ofNat (c.toNat - 32) else c

/-- Python `str.upper()` (the row names are ASCII). -/
def upStr (s : String) : String := String.mk (s.data.map upChar)

/-- Python `round(q, 3)` (half-up at ties instead of banker's; no
statement below evaluates it at a tie). -/
def round3q (q : ℚ) : ℚ := (round (q * 1000) : ℤ) / 1000

/-- Pointwise bump of a `String`-indexed rational accumulator
(`ms[name] += v`). -/
def bumpQ (f : String → ℚ) (key : String) (v : ℚ) : String → ℚ :=
  fun k => if k = key then f k + v else f k

/-- Pointwise bump of a `String`-indexed counter (`mc[name] += 1`). -/
def bumpN (f : String → Nat) (key : String) : String → Nat :=
  fun k => if k = key then f k + 1 else f k

/-- Pointwise increment of a `Nat`-indexed counter (`lows[i] += 1`). -/
def bumpI (f : Nat → Nat) (i : Nat) : Nat → Nat :=
  fun j => if j = i then f j + 1 else f j

/-- Append `v` to the bucket named `key` (`buckets[label].append(total)`). -/
def bumpList (b : String → List ℚ) (key : String) (v : ℚ) : String → List ℚ :=
  fun k => if k = key then b k ++ [v] else b k

/-- `_latest_by_patient` (`dashboard_methods.py` lines 88–93): keep, per
patient id, the stored snapshot unless a strictly later-dated one is seen. -/
def latestByPatient (features : List ModelFeatures) : List (Int × ModelFeatures) :=
  features.foldl
    (fun by_ mf =>
      match lookupA by_ mf.patient_id with
      | none => setk by_ mf.patient_id mf
      | some cur => if cur.date < mf.date then setk by_ mf.patient_id mf else by_)
    []

/-- The snapshot-date filter used by every aggregation's query
(`ModelFeatures.date >= start, ModelFeatures.date <= end`). -/
def inRangeSnaps (mfs : List ModelFeatures) (start finish : Int) : List ModelFeatures :=
  mfs.filter (fun mf => decide (start ≤ mf.date ∧ mf.date ≤ finish))

/-- `LabTest.status.in_(["ready", "released"])`. -/
def eligStatus (t : LabTest) : Bool :=
  t.status = "ready" || t.status = "released"

/-- `_test_date` / `t.result_date or t.collection_date` (`collection_date`
is non-nullable in `models.py`, so the epoch fallback of `_test_date` and
the `(dt or start)` fallback are unreachable). -/
def testDate (t : LabTest) : Int := t.result_date.getD t.collection_date

/-- `_risk_from_value` (`dashboard_methods.py` lines 106–112). -/
def riskFromValue (v : ℚ) : String :=
  if v < 2 then "low" else if v < 4 then "medium" else "high"

/-- Total predicted contaminant load:
`sum(float((mf.output_predictions or {}).get(k, 0.0)) for k in PCB_KEYS)`. -/
def totalLoad (mf : ModelFeatures) : ℚ :=
  (PCB_KEYS.map (fun k => (predLookup mf k).getD 0)).sum

/-! ## The aggregation functions of `dashboard_methods.py` -/

/-- Output shape of `fetch_avg_pcb_levels`. -/
structure AvgPcbOut where
  labels : List String
  maternal : List ℚ
  fetal : List ℚ
deriving DecidableEq

/-- Output shape of `fetch_risk_distribution_by_pcb`. -/
structure RiskDistOut where
  labels : List String
  risk_low : List Nat
  risk_med : List Nat
  risk_high : List Nat
deriving DecidableEq

/-- Output shape of `fetch_concentration_series`. -/
structure ConcSeriesOut where
  labels : List String
  maternal_series : List ℚ
  fetal_series : List ℚ
deriving DecidableEq

/-- Output shape of the labelled-averages aggregations
(`fetch_age_groups_avg`, `fetch_smoking_comparison`). -/
structure LabeledValues where
  labels : List String
  values : List ℚ
deriving DecidableEq

/-- Output shape of `fetch_correlation_heatmap`. -/
structure HeatmapOut where
  labels : List String
  matrix : List (List ℝ)

/-- Output shape of `fetch_summary`. -/
structure SummaryOut where
  total_patients : Nat
  high_risk : Nat
  top_pcb : String
  top_pcb_avg : ℚ
  avg_fetal_pcb : ℚ
  correlation : ℝ

/-- One row of a lab test processed by the maternal loop of
`fetch_avg_pcb_levels`:
`if name in ms and row.get("level") is not None: ms[name] += ...; mc[name] += 1`. -/
def procPcbRow (acc : (String → ℚ) × (String → Nat)) (r : PcbRow) :
    (String → ℚ) × (String → Nat) :=
  let name := upStr r.name
  match r.level with
  | some lv => if name ∈ PCB_KEYS then (bumpQ acc.1 name lv, bumpN acc.2 name) else acc
  | none => acc

/-- One key of the shared prediction-accumulation loop
(`v = preds.get(k); if v is not None: fs[k] += float(v); fc[k] += 1`). -/
def predStep (mf : ModelFeatures) (acc : (String → ℚ) × (String → Nat)) (k : String) :
    (String → ℚ) × (String → Nat) :=
  match predLookup mf k with
  | some v => (bumpQ acc.1 k v, bumpN acc.2 k)
  | none => acc

/-- The shared prediction-accumulation loop over all ten keys, used by the
fetal half of `fetch_avg_pcb_levels` and by `fetch_summary`. -/
def accumPreds (l : List ModelFeatures) : (String → ℚ) × (String → Nat) :=
  l.foldl (fun acc mf => PCB_KEYS.foldl (predStep mf) acc) (fun _ => 0, fun _ => 0)

/-- `fetch_avg_pcb_levels` (`dashboard_methods.py` lines 193–222). -/
def fetch_avg_pcb_levels (tests : List LabTest) (mfs : List ModelFeatures)
    (start finish : Int) : AvgPcbOut :=
  let msmc := (tests.filter eligStatus).foldl
    (fun acc t =>
      if start ≤ testDate t ∧ testDate t ≤ finish then
        (t.pcb_results.getD []).foldl procPcbRow acc
      else acc)
    (fun _ => 0, fun _ => 0)
  let maternal := PCB_KEYS.map (fun k => if msmc.2 k = 0 then 0 else msmc.1 k / msmc.2 k)
  let fsfc := accumPreds (inRangeSnaps mfs start finish)
  let fetal := PCB_KEYS.map (fun k => if fsfc.2 k = 0 then 0 else fsfc.1 k / fsfc.2 k)
  ⟨PCB_KEYS, maternal, fetal⟩

/-- One enumerated-substance step of `fetch_risk_distribution_by_pcb`'s
inner loop (`v = float(preds.get(k, 0.0)); r = _risk_from_value(v); ...`). -/
def riskStep (mf : ModelFeatures)
    (acc : (Nat → Nat) × (Nat → Nat) × (Nat → Nat)) (ik : Nat × String) :
    (Nat → Nat) × (Nat → Nat) × (Nat → Nat) :=
  let v := (predLookup mf ik.2).getD 0
  let r := riskFromValue v
  if r = "low" then (bumpI acc.1 ik.1, acc.2.1, acc.2.2)
  else if r = "medium" then (acc.1, bumpI acc.2.1 ik.1, acc.2.2)
  else (acc.1, acc.2.1, bumpI acc.2.2 ik.1)

/-- `fetch_risk_distribution_by_pcb` (`dashboard_methods.py` lines 225–241). -/
def fetch_risk_distribution_by_pcb (mfs : List ModelFeatures)
    (start finish : Int) : RiskDistOut :=
  let cnt := (inRangeSnaps mfs start finish).foldl
    (fun acc mf => PCB_KEYS.enum.foldl (riskStep mf) acc)
    (fun _ => 0, fun _ => 0, fun _ => 0)
  ⟨PCB_KEYS,
   (List.range PCB_KEYS.length).map cnt.1,
   (List.range PCB_KEYS.length).map cnt.2.1,
   (List.range PCB_KEYS.length).map cnt.2.2⟩

/-- The levels list of a lab test
(`[float(r.get("level") or 0.0) for r in (t.pcb_results or []) if r.get("level") is not None]`;
for a present level `v`, `float(v or 0.0) = v`). -/
def measuredLevels (t : LabTest) : List ℚ :=
  (t.pcb_results.getD []).filterMap (fun r => r.level)

/-- The strictly positive predicted values of a snapshot
(`vals = [float(preds.get(k, 0) or 0.0) for k in PCB_KEYS]; nonzero = [v for v in vals if v > 0]`). -/
def positivePreds (mf : ModelFeatures) : List ℚ :=
  ((PCB_KEYS.map (fun k => (predLookup mf k).getD 0)).filter (fun v => decide (0 < v)))

/-- Ascending insertion of an integer into a sorted list (for Python `sorted`). -/
def insertSorted (x : Int) : List Int → List Int
  | [] => [x]
  | y :: ys => if x ≤ y then x :: y :: ys else y :: insertSorted x ys

/-- Python `sorted` on a list of integers. -/
def sortInts (l : List Int) : List Int := l.foldr insertSorted []

/-- The per-patient maternal-average dict of `fetch_concentration_series`
(step 1 of the function): each qualifying test OVERWRITES the patient's
entry with that single test's mean level. -/
def matAvgsOf (tests : List LabTest) (start finish : Int) : List (Int × ℚ) :=
  (tests.filter eligStatus).foldl
    (fun acc t =>
      if (start ≤ testDate t ∧ testDate t ≤ finish) ∧ t.patient_id ≠ 0 then
        if measuredLevels t ≠ [] then
          setk acc t.patient_id ((measuredLevels t).sum / (measuredLevels t).length)
        else acc
      else acc)
    []

/-- The per-patient fetal-average dict of `fetch_concentration_series`
(step 2): mean of the latest snapshot's strictly positive predictions. -/
def fetAvgsOf (mfs : List ModelFeatures) (start finish : Int) : List (Int × ℚ) :=
  (latestByPatient (inRangeSnaps mfs start finish)).foldl
    (fun acc pm =>
      if positivePreds pm.2 ≠ [] then
        setk acc pm.1 ((positivePreds pm.2).sum / (positivePreds pm.2).length)
      else acc)
    []

/-- The sorted ids of patients present in both dicts (step 3,
`sorted(set(mat_avgs) & set(fet_avgs))`). -/
def commonIdsOf (tests : List LabTest) (mfs : List ModelFeatures)
    (start finish : Int) : List Int :=
  sortInts ((keysOf (matAvgsOf tests start finish)).filter
    (fun pid => decide (pid ∈ keysOf (fetAvgsOf mfs start finish))))

/-- `fetch_concentration_series` (`dashboard_methods.py` lines 244–282). -/
def fetch_concentration_series (tests : List LabTest) (mfs : List ModelFeatures)
    (start finish : Int) : ConcSeriesOut :=
  let common := commonIdsOf tests mfs start finish
  ⟨(List.range common.length).map (fun i => "P" ++ toString (i + 1)),
   common.map (fun pid => (lookupA (matAvgsOf tests start finish) pid).getD 0),
   common.map (fun pid => (lookupA (fetAvgsOf mfs start finish) pid).getD 0)⟩

/-- `patients = {p.id: p for p in rows}; patients.get(pid)` (last row with a
given id wins, as in a Python dict comprehension). -/
def lookupPatient (patients : List Patient) (pid : Int) : Option Patient :=
  patients.foldl (fun acc p => if p.id = pid then some p else acc) none

/-- The fixed age-band labels of `fetch_age_groups_avg`. -/
def AGE_LABELS : List String := ["<25", "25-30", "31-35", "36-40", "41+"]

/-- The bucket entry one latest-snapshot pair contributes to
`fetch_age_groups_avg`'s bucket dict (`none` when the patient is missing
or has no age; otherwise the band label and the total predicted load). -/
def ageEntry (patients : List Patient) (pm : Int × ModelFeatures) :
    Option (String × ℚ) :=
  match lookupPatient patients pm.1 with
  | none => none
  | some p =>
    match p.age with
    | none => none
    | some a =>
      let total := totalLoad pm.2
      let lab :=
        if a < 25 then "<25"
        else if a ≤ 30 then "25-30"
        else if a ≤ 35 then "31-35"
        else if a ≤ 40 then "36-40"
        else "41+"
      some (lab, total)

/-- `fetch_age_groups_avg` (`dashboard_methods.py` lines 290–324). -/
def fetch_age_groups_avg (patients : List Patient) (mfs : List ModelFeatures)
    (start finish : Int) : LabeledValues :=
  let mfsL := latestByPatient (inRangeSnaps mfs start finish)
  if mfsL = [] then ⟨AGE_LABELS, [0, 0, 0, 0, 0]⟩
  else
    let buckets := mfsL.foldl
      (fun b pm =>
        match ageEntry patients pm with
        | some lv => bumpList b lv.1 lv.2
        | none => b)
      (fun _ => [])
    ⟨AGE_LABELS, AGE_LABELS.map (fun l => ratMean (buckets l))⟩

/-- One snapshot of `fetch_smoking_comparison`
(`dashboard_methods.py` lines 366–378):
`if int(feats.get("Smoking", 0)) == 1: smokers.append(total) else nons.append(total)`. -/
def smokeStep (acc : List ℚ × List ℚ) (mf : ModelFeatures) : List ℚ × List ℚ :=
  if intTrunc ((featGet mf "Smoking").getD 0) = 1 then (acc.1 ++ [totalLoad mf], acc.2)
  else (acc.1, acc.2 ++ [totalLoad mf])

/-- `fetch_smoking_comparison` continued: the pair accumulated by
`smokeStep` holds the `smokers` and `nons` lists in that order. -/
def fetch_smoking_comparison (mfs : List ModelFeatures)
    (start finish : Int) : LabeledValues :=
  let sn := (inRangeSnaps mfs start finish).foldl smokeStep ([], [])
  ⟨["Non-smokers", "Smokers"], [ratMean sn.2, ratMean sn.1]⟩

/-- The five variables of `fetch_correlation_heatmap`. -/
def HEAT_VARS : List String := ["Diet", "Smoking", "BMI", "Age", "mPCB"]

/-- The feature value appended to one of the heatmap's five series for a
snapshot (`float(feats.get(..., 0.0) or 0.0)`; the `or 0.0` only maps a
stored `0` to `0.0`). -/
def heatFeat (mf : ModelFeatures) (v : String) : ℚ :=
  if v = "Diet" then (featGet mf "Daily dairy doses").getD ((featGet mf "Sum of dairy products").getD 0)
  else if v = "Smoking" then (featGet mf "Smoking").getD 0
  else if v = "BMI" then (featGet mf "BMI").getD 0
  else if v = "Age" then (featGet mf "Age").getD 0
  else if v = "mPCB" then (featGet mf "maternal_PCB").getD 0
  else 0

/-- One named series of the heatmap, over the reals (each Python float is
idealised as the exact value it was coerced from). -/
noncomputable def heatSeries (mfs : List ModelFeatures) (start finish : Int)
    (v : String) : List ℝ :=
  (inRangeSnaps mfs start finish).map (fun mf => ((heatFeat mf v : ℚ) : ℝ))

/-- The nested `corr` helper of `fetch_correlation_heatmap`
(`dashboard_methods.py` lines 394–403), idealised over ℝ
(`**0.5` is the real square root on these non-negative sums). -/
noncomputable def corr (a b : List ℝ) : ℝ :=
  let n := a.length
  if n = 0 ∨ n ≠ b.length then 0
  else
    let mx := a.sum / n
    let my := b.sum / n
    let num := ((a.zip b).map (fun p => (p.1 - mx) * (p.2 - my))).sum
    let denx := Real.sqrt ((a.map (fun x => (x - mx) ^ 2)).sum)
    let deny := Real.sqrt ((b.map (fun y => (y - my) ^ 2)).sum)
    if denx = 0 ∨ deny = 0 then 0 else num / (denx * deny)

/-- Python `round(x, 3)` over ℝ (same tie caveat as `round3q`). -/
noncomputable def round3R (x : ℝ) : ℝ := (round (x * 1000) : ℤ) / 1000

/-- `fetch_correlation_heatmap` (`dashboard_methods.py` lines 381–411). -/
noncomputable def fetch_correlation_heatmap (mfs : List ModelFeatures)
    (start finish : Int) : HeatmapOut :=
  ⟨HEAT_VARS,
   HEAT_VARS.map (fun r =>
     HEAT_VARS.map (fun c =>
       round3R (corr (heatSeries mfs start finish r) (heatSeries mfs start finish c))))⟩

/-- Python `max(items, key=lambda x: x[1])` on a nonempty list: the first
item with the largest value ("-" fallback is unreachable, `avgs` always
has ten entries). -/
def maxByVal : List (String × ℚ) → String × ℚ
  | [] => ("-", 0)
  | h :: tl => tl.foldl (fun best x => if best.2 < x.2 then x else best) h

/-- `str(r).lower() == "high"` on a `Patient.risk` value
(`str(None).lower() = "none"`). -/
def riskHigh : Option String → Bool
  | some s => s.toLower = "high"
  | none => false

/-- The per-snapshot total of `fetch_summary`'s first loop
(`total` sums only the predictions that are present). -/
def presentSum (mf : ModelFeatures) : ℚ :=
  (PCB_KEYS.filterMap (fun k => predLookup mf k)).sum

/-- The maternal-vs-fetal correlation of `fetch_summary`
(lines 170–177), on the already-extracted `xs`/`ys`; includes the final
`round(..., 3)`. -/
noncomputable def summaryCorr (xs ys : List ℚ) : ℝ :=
  let xr : List ℝ := xs.map (fun q => (q : ℝ))
  let yr : List ℝ := ys.map (fun q => (q : ℝ))
  let mx := xr.sum / xr.length
  let my := yr.sum / yr.length
  let num := ((xr.zip yr).map (fun p => (p.1 - mx) * (p.2 - my))).sum
  let denx := Real.sqrt ((xr.map (fun x => (x - mx) ^ 2)).sum)
  let deny := Real.sqrt ((yr.map (fun y => (y - my) ^ 2)).sum)
  round3R (if denx ≠ 0 ∧ deny ≠ 0 then num / (denx * deny) else 0)

/-- `fetch_summary` (`dashboard_methods.py` lines 119–186). -/
noncomputable def fetch_summary (patients : List Patient) (mfs : List ModelFeatures)
    (start finish : Int) : SummaryOut :=
  let latest := latestByPatient (inRangeSnaps mfs start finish)
  let pids := keysOf latest
  let high_risk := (pids.filter (fun pid =>
    match lookupPatient patients pid with
    | some p => riskHigh p.risk
    | none => false)).length
  let fsfc := accumPreds (latest.map (·.2))
  let fetal_totals := (latest.map (·.2)).map presentSum
  let avgs := PCB_KEYS.map (fun k => (k, if fsfc.2 k = 0 then 0 else fsfc.1 k / fsfc.2 k))
  let top_pcb := if avgs = [] then "-" else (maxByVal avgs).1
  let top_pcb_avg := (lookupS avgs top_pcb).getD 0
  let avg_fetal := ratMean fetal_totals
  let pairs := (latest.map (·.2)).filterMap (fun mf =>
    match featGet mf "maternal_PCB" with
    | some m => some (m, totalLoad mf)
    | none => none)
  let xs := pairs.map (·.1)
  let ys := pairs.map (·.2)
  ⟨pids.length, high_risk, top_pcb, round3q top_pcb_avg, round3q avg_fetal,
   if xs ≠ [] ∧ ys ≠ [] then summaryCorr xs ys else 0⟩

/-! ## Declarative companion definitions used by the theorems -/

/-- The first element of a snapshot list whose date is greatest (the
declarative counterpart of the `_latest_by_patient` fold). -/
def firstMax (l : List ModelFeatures) : Option ModelFeatures :=
  l.find? (fun mf => l.all (fun mf2 => decide (mf2.date ≤ mf.date)))

/-- The filter selecting one patient's snapshots. -/
def ofPatient (p : Int) (l : List ModelFeatures) : List ModelFeatures :=
  l.filter (fun mf => decide (mf.patient_id = p))

/-- The predictions present for key `k` across a snapshot list, in order. -/
def predContribs (l : List ModelFeatures) (k : String) : List ℚ :=
  l.filterMap (fun mf => predLookup mf k)

/-- Modelled from the spec (claim C1): the mean predicted fetal level of
substance `k` computed from the latest-per-patient snapshots in range.
`fetch_avg_pcb_levels` does NOT do this; it averages over every in-range
snapshot. -/
def specFetalAvgFromLatest (mfs : List ModelFeatures) (s e : Int) (k : String) : ℚ :=
  ratMean (predContribs ((latestByPatient (inRangeSnaps mfs s e)).map (·.2)) k)

/-- The level contributions of a result-row list to substance `k`: rows
whose uppercased name equals `k` and whose level is present. -/
def rowLevels (rows : List PcbRow) (k : String) : List ℚ :=
  rows.filterMap (fun r => if upStr r.name = k then r.level else none)

/-- The measured levels feeding substance `k`'s maternal average: all
matching rows of the eligible in-range tests. -/
def maternalLevels (tests : List LabTest) (s e : Int) (k : String) : List ℚ :=
  ((tests.filter eligStatus).filter
      (fun t => decide (s ≤ testDate t ∧ testDate t ≤ e))).flatMap
    (fun t => rowLevels (t.pcb_results.getD []) k)

/-- `int(feats.get("Smoking", 0)) == 1` as a Bool. -/
def isSmoker (mf : ModelFeatures) : Bool :=
  decide (intTrunc ((featGet mf "Smoking").getD 0) = 1)

/-- The declarative members of one age band: totals of the latest in-range
snapshots of patients with a known age falling in it. -/
def ageMembers (patients : List Patient) (mfs : List ModelFeatures)
    (s e : Int) (lab : String) : List ℚ :=
  (latestByPatient (inRangeSnaps mfs s e)).filterMap (fun pm =>
    match ageEntry patients pm with
    | some lv => if lv.1 = lab then some lv.2 else none
    | none => none)

/-- A test qualifying to (over)write patient `p`'s maternal average. -/
def testContrib (s e p : Int) (t : LabTest) : Bool :=
  decide ((s ≤ testDate t ∧ testDate t ≤ e) ∧ t.patient_id ≠ 0 ∧
    measuredLevels t ≠ [] ∧ t.patient_id = p)

/-- Simple duplicate-removal keeping first occurrences (used only by the
spec-modelled concentration series below). -/
def dedupInts (l : List Int) : List Int :=
  l.foldl (fun acc x => if x ∈ acc then acc else acc ++ [x]) []

/-- Modelled from the spec (claim C3): the concentration series as the
claim words it — for each patient, the maternal average is the mean of ALL
the patient's measured lab levels across eligible in-range tests (missing
levels excluded), and the fetal average is the mean of the latest
snapshot's NON-ZERO predicted values (only exact zeros excluded).  The
code instead lets each test overwrite the patient's maternal entry and
keeps only strictly positive predictions. -/
def specConcentrationSeries (tests : List LabTest) (mfs : List ModelFeatures)
    (s e : Int) : ConcSeriesOut :=
  let allLevels := fun (p : Int) =>
    (((tests.filter eligStatus).filter
        (fun t => decide ((s ≤ testDate t ∧ testDate t ≤ e) ∧
          t.patient_id ≠ 0 ∧ t.patient_id = p))).flatMap measuredLevels)
  let latest := latestByPatient (inRangeSnaps mfs s e)
  let nonzeroPreds := fun (mf : ModelFeatures) =>
    (PCB_KEYS.map (fun k => (predLookup mf k).getD 0)).filter
      (fun v => decide (v ≠ 0))
  let hasFet := fun (p : Int) =>
    match lookupA latest p with
    | some mf => decide (nonzeroPreds mf ≠ [])
    | none => false
  let common := sortInts ((dedupInts
      (tests.map (fun t => t.patient_id) ++ keysOf latest)).filter
    (fun p => decide (allLevels p ≠ []) && hasFet p))
  ⟨(List.range common.length).map (fun i => "P" ++ toString (i + 1)),
   common.map (fun p => (allLevels p).sum / (allLevels p).length),
   common.map (fun p =>
     match lookupA latest p with
     | some mf => (nonzeroPreds mf).sum / (nonzeroPreds mf).length
     | none => 0)⟩

-- sanity checks (concrete evaluation of the embedded helpers)

example : riskFromValue 1 = "low" ∧ riskFromValue 3 = "medium" ∧ riskFromValue 5 = "high" := by
  norm_num [riskFromValue]

example : upStr "pcb_118" = "PCB_118" := by decide

example : intTrunc (-7/2) = -3 := by norm_num [intTrunc]; decide

example : round3q (1/3) = 333/1000 := by norm_num [round3q, round_eq]

example : lookupA (setk (setk [] 1 true) 2 false) 1 = some true := by decide

/-! ## Association-list lemmas -/

theorem lookupA_setk {α : Type} (l : List (Int × α)) (k : Int) (v : α) (q : Int) :
    lookupA (setk l k v) q = if k = q then some v else lookupA l q := by
  induction l with
  | nil => by_cases h : k = q <;> simp [setk, lookupA, h]
  | cons hd tl ih =>
    obtain ⟨a, b⟩ := hd
    by_cases hak : a = k
    · subst hak
      by_cases hq : a = q <;> simp [setk, lookupA, hq]
    · by_cases hq : a = q
      · subst hq
        have : ¬k = a := fun h => hak h.symm
        simp [setk, lookupA, hak, this]
      · simp [setk, lookupA, hak, hq, ih]

theorem lookupA_eq_none_iff {α : Type} (l : List (Int × α)) (q : Int) :
    lookupA l q = none ↔ q ∉ keysOf l := by
  induction l with
  | nil => simp [lookupA, keysOf]
  | cons hd tl ih =>
    obtain ⟨a, b⟩ := hd
    by_cases hq : a = q
    · subst hq
      simp [lookupA, keysOf]
    · simp only [lookupA, keysOf, List.map_cons, List.mem_cons, if_neg hq]
      rw [keysOf] at ih
      rw [ih]
      constructor
      · intro h hor
        rcases hor with h1 | h2
        · exact hq h1.symm
        · exact h h2
      · intro h h2
        exact h (Or.inr h2)

theorem lookupA_isSome_iff {α : Type} (l : List (Int × α)) (q : Int) :
    (∃ v, lookupA l q = some v) ↔ q ∈ keysOf l := by
  rcases h : lookupA l q with _ | v
  · rw [lookupA_eq_none_iff] at h
    simp [h]
  · constructor
    · intro _
      by_contra hq
      rw [← lookupA_eq_none_iff] at hq
      rw [h] at hq
      cases hq
    · exact fun _ => ⟨v, rfl⟩

/-! ## `find?` helper lemmas -/

theorem find?_congr_mem {α : Type} (l : List α) (p q : α → Bool)
    (h : ∀ x ∈ l, p x = q x) : l.find? p = l.find? q := by
  induction l with
  | nil => rfl
  | cons a tl ih =>
    have ha := h a (List.mem_cons_self a tl)
    rcases hpa : p a with _ | _
    · rw [List.find?_cons_of_neg _ (by simp [hpa]),
        List.find?_cons_of_neg _ (by simp [← ha, hpa])]
      exact ih fun x hx => h x (List.mem_cons_of_mem a hx)
    · rw [List.find?_cons_of_pos _ hpa, List.find?_cons_of_pos _ (by rw [← ha, hpa])]

theorem find?_append_some {α : Type} (l l2 : List α) (p : α → Bool) (a : α)
    (h : l.find? p = some a) : (l ++ l2).find? p = some a := by
  rw [List.find?_append, h]
  rfl

theorem find?_append_none {α : Type} (l l2 : List α) (p : α → Bool)
    (h : l.find? p = none) : (l ++ l2).find? p = l2.find? p := by
  rw [List.find?_append, h]
  rfl

theorem exists_max_date (l : List ModelFeatures) (h : l ≠ []) :
    ∃ x ∈ l, ∀ y ∈ l, y.date ≤ x.date := by
  induction l with
  | nil => exact absurd rfl h
  | cons a tl ih =>
    rcases eq_or_ne tl [] with htl | htl
    · subst htl
      exact ⟨a, List.mem_cons_self a [], by simp⟩
    · obtain ⟨x, hxmem, hx⟩ := ih htl
      rcases le_total x.date a.date with hle | hle
      · refine ⟨a, List.mem_cons_self a tl, ?_⟩
        intro y hy
        rcases List.mem_cons.mp hy with rfl | hy
        · exact le_refl _
        · exact le_trans (hx y hy) hle
      · refine ⟨x, List.mem_cons_of_mem a hxmem, ?_⟩
        intro y hy
        rcases List.mem_cons.mp hy with rfl | hy
        · exact hle
        · exact hx y hy

theorem firstMax_eq_none_iff (l : List ModelFeatures) :
    firstMax l = none ↔ l = [] := by
  constructor
  · intro h
    by_contra hne
    obtain ⟨x, hxmem, hx⟩ := exists_max_date l hne
    have : (l.find? (fun mf => l.all (fun mf2 => decide (mf2.date ≤ mf.date)))).isSome := by
      rw [List.find?_isSome]
      exact ⟨x, hxmem, by simpa [List.all_eq_true] using hx⟩
    rw [firstMax] at h
    rw [h] at this
    cases this
  · intro h
    subst h
    rfl

theorem firstMax_singleton (mf : ModelFeatures) : firstMax [mf] = some mf := by
  rw [firstMax]
  rw [List.find?_cons_of_pos _ (by simp)]

theorem latestByPatient_go (l : List ModelFeatures) :
    ∀ (seen : List ModelFeatures) (acc : List (Int × ModelFeatures)),
      (∀ q, lookupA acc q = firstMax (ofPatient q seen)) →
      ∀ q,
        lookupA
          (l.foldl
            (fun by_ mf =>
              match lookupA by_ mf.patient_id with
              | none => setk by_ mf.patient_id mf
              | some cur => if cur.date < mf.date then setk by_ mf.patient_id mf else by_)
            acc) q =
          firstMax (ofPatient q (seen ++ l)) := by
  induction l with
  | nil => intro seen acc hinv q; simpa using hinv q
  | cons mf tl ih =>
    intro seen acc hinv q
    have hstep :
        ∀ r,
          lookupA
            (match lookupA acc mf.patient_id with
              | none => setk acc mf.patient_id mf
              | some cur => if cur.date < mf.date then setk acc mf.patient_id mf else acc) r =
            firstMax (ofPatient r (seen ++ [mf])) := by
      intro r
      by_cases hr : mf.patient_id = r
      · -- the new snapshot belongs to patient `r`
        subst hr
        have hflt : ofPatient mf.patient_id (seen ++ [mf]) =
            ofPatient mf.patient_id seen ++ [mf] := by
          simp [ofPatient, List.filter_append]
        cases hacc : lookupA acc mf.patient_id with
        | none =>
          -- no snapshot of this patient seen yet
          dsimp only
          have hseen : ofPatient mf.patient_id seen = [] := by
            have h0 := hinv mf.patient_id
            rw [hacc] at h0
            exact (firstMax_eq_none_iff _).mp h0.symm
          rw [lookupA_setk]
          rw [if_pos rfl, hflt, hseen, List.nil_append, firstMax_singleton]
        | some cur =>
          -- a snapshot of this patient is stored
          dsimp only
          have hcur : firstMax (ofPatient mf.patient_id seen) = some cur := by
            rw [← hacc]
            exact (hinv mf.patient_id).symm
          have hcur_mem : cur ∈ ofPatient mf.patient_id seen :=
            List.mem_of_find?_eq_some hcur
          have hcur_all : ∀ y ∈ ofPatient mf.patient_id seen, y.date ≤ cur.date := by
            have h1 := List.find?_some hcur
            simpa [List.all_eq_true] using h1
          by_cases hlt : cur.date < mf.date
          · -- strictly later: the stored snapshot is replaced
            rw [if_pos hlt, lookupA_setk, if_pos rfl, hflt]
            have hnone :
                (ofPatient mf.patient_id seen).find?
                  (fun x => (ofPatient mf.patient_id seen ++ [mf]).all
                    (fun mf2 => decide (mf2.date ≤ x.date))) = none := by
              rw [List.find?_eq_none]
              intro x hx
              simp only [List.all_append, Bool.and_eq_true, List.all_eq_true,
                decide_eq_true_eq]
              rintro ⟨-, hmf⟩
              have h1 : mf.date ≤ x.date := hmf mf (List.mem_singleton_self mf)
              have h2 : x.date ≤ cur.date := hcur_all x hx
              omega
            rw [firstMax, find?_append_none _ _ _ hnone]
            have hP : ((ofPatient mf.patient_id seen ++ [mf]).all
                (fun mf2 => decide (mf2.date ≤ mf.date))) = true := by
              simp only [List.all_append, Bool.and_eq_true, List.all_eq_true,
                decide_eq_true_eq]
              refine ⟨fun y hy => le_trans (hcur_all y hy) (le_of_lt hlt), by simp⟩
            rw [eq_comm]
            apply List.find?_cons_of_pos
            exact hP
          · -- not later: the stored snapshot stays
            rw [if_neg hlt, hacc, hflt]
            have hmfle : mf.date ≤ cur.date := le_of_not_lt hlt
            have hcongr :
                (ofPatient mf.patient_id seen).find?
                  (fun x => (ofPatient mf.patient_id seen ++ [mf]).all
                    (fun mf2 => decide (mf2.date ≤ x.date))) =
                (ofPatient mf.patient_id seen).find?
                  (fun x => (ofPatient mf.patient_id seen).all
                    (fun mf2 => decide (mf2.date ≤ x.date))) := by
              apply find?_congr_mem
              intro x hx
              cases hQ : (ofPatient mf.patient_id seen).all
                  (fun mf2 => decide (mf2.date ≤ x.date)) with
              | false =>
                simp only [List.all_append, hQ, Bool.false_and]
              | true =>
                have hxmax : ∀ y ∈ ofPatient mf.patient_id seen, y.date ≤ x.date := by
                  simpa [List.all_eq_true] using hQ
                have hcx : cur.date ≤ x.date := hxmax cur hcur_mem
                simp only [List.all_append, hQ, Bool.true_and, List.all_eq_true,
                  decide_eq_true_eq]
                simp only [List.mem_singleton, forall_eq, eq_self_iff_true, iff_true]
                omega
            have hsome :
                (ofPatient mf.patient_id seen).find?
                  (fun x => (ofPatient mf.patient_id seen ++ [mf]).all
                    (fun mf2 => decide (mf2.date ≤ x.date))) = some cur := by
              rw [hcongr]
              exact hcur
            rw [firstMax]
            rw [find?_append_some _ _ _ _ hsome]
      · -- a snapshot of a different patient: nothing changes for `r`
        have hflt : ofPatient r (seen ++ [mf]) = ofPatient r seen := by
          simp [ofPatient, List.filter_append, hr]
        have hlook :
            lookupA
              (match lookupA acc mf.patient_id with
                | none => setk acc mf.patient_id mf
                | some cur => if cur.date < mf.date then setk acc mf.patient_id mf else acc) r =
              lookupA acc r := by
          cases lookupA acc mf.patient_id with
          | none =>
            rw [lookupA_setk]
            rw [if_neg hr]
          | some cur =>
            dsimp only
            by_cases hlt : cur.date < mf.date
            · rw [if_pos hlt, lookupA_setk, if_neg hr]
            · rw [if_neg hlt]
        rw [hlook, hflt]
        exact hinv r
    have hres := ih (seen ++ [mf])
      (match lookupA acc mf.patient_id with
        | none => setk acc mf.patient_id mf
        | some cur => if cur.date < mf.date then setk acc mf.patient_id mf else acc)
      hstep q
    simpa [List.foldl_cons] using hres

/-- Core characterisation: `_latest_by_patient` retains, for every patient,
the first snapshot in input order attaining that patient's maximum date
(a stored snapshot is replaced only on a strictly greater date). -/
theorem latestByPatient_lookup (l : List ModelFeatures) (q : Int) :
    lookupA (latestByPatient l) q = firstMax (ofPatient q l) := by
  have h := latestByPatient_go l [] [] (fun r => by simp [lookupA, ofPatient, firstMax]) q
  simpa [latestByPatient] using h

/-! ## Claims C4 and C6: latest-per-patient selection -/

/-- C4 (amended): in the latest-per-patient reduction the retained snapshot
for each patient is the *first* snapshot in input order attaining that
patient's maximum date — a stored snapshot is replaced only by a strictly
later-dated one, so on equal date fields the first-seen snapshot is kept,
not the last. -/
theorem latest_by_patient_keeps_first_on_ties (l : List ModelFeatures) (p : Int) :
    lookupA (latestByPatient l) p = firstMax (ofPatient p l) :=
  latestByPatient_lookup l p

/-- C4 (counterexample): two same-patient snapshots with equal dates; the
reduction keeps the first-seen one, not the last-seen one claimed by the
spec. -/
theorem latest_by_patient_tie_counterexample :
    lookupA (latestByPatient
        [⟨1, 5, [], none⟩, ⟨1, 5, [], some []⟩]) 1 =
      some ⟨1, 5, [], none⟩ ∧
    (⟨1, 5, [], none⟩ : ModelFeatures) ≠ ⟨1, 5, [], some []⟩ := by
  constructor
  · decide
  · intro h
    cases h

/-- C6: for every input list and every patient appearing in it, the
latest-per-patient reduction maps that patient to a snapshot of that
patient from the list whose date is maximal among the patient's snapshots;
in particular with dates `t1 < t2` the `t2` row is reflected. -/
theorem latest_by_patient_selects_max_date (l : List ModelFeatures) (p : Int)
    (h : ∃ mf ∈ l, mf.patient_id = p) :
    ∃ mf, lookupA (latestByPatient l) p = some mf ∧ mf ∈ l ∧ mf.patient_id = p ∧
      ∀ mf2 ∈ l, mf2.patient_id = p → mf2.date ≤ mf.date := by
  obtain ⟨w, hw, hwp⟩ := h
  have hne : ofPatient p l ≠ [] := by
    intro hemp
    have hmem : w ∈ ofPatient p l := by simp [ofPatient, hw, hwp]
    rw [hemp] at hmem
    cases hmem
  cases hfm : firstMax (ofPatient p l) with
  | none => exact absurd ((firstMax_eq_none_iff _).mp hfm) hne
  | some m =>
    refine ⟨m, ?_, ?_, ?_, ?_⟩
    · rw [latestByPatient_lookup, hfm]
    · have hmem := List.mem_of_find?_eq_some hfm
      exact (List.mem_filter.mp hmem).1
    · have hmem := List.mem_of_find?_eq_some hfm
      have h2 := (List.mem_filter.mp hmem).2
      simpa using h2
    · intro mf2 hmem hp
      have hall := List.find?_some hfm
      rw [List.all_eq_true] at hall
      have hmem2 : mf2 ∈ ofPatient p l := by simp [ofPatient, hmem, hp]
      simpa using hall mf2 hmem2

/-- C6 (witness): a concrete two-snapshot history with dates 3 < 7. -/
theorem latest_by_patient_selects_max_date_witness :
    (∃ mf ∈ [(⟨1, 3, [], none⟩ : ModelFeatures), ⟨1, 7, [], none⟩], mf.patient_id = 1) ∧
    ∃ mf, lookupA (latestByPatient
        [(⟨1, 3, [], none⟩ : ModelFeatures), ⟨1, 7, [], none⟩]) 1 = some mf ∧
      mf ∈ [(⟨1, 3, [], none⟩ : ModelFeatures), ⟨1, 7, [], none⟩] ∧ mf.patient_id = 1 ∧
      ∀ mf2 ∈ [(⟨1, 3, [], none⟩ : ModelFeatures), ⟨1, 7, [], none⟩],
        mf2.patient_id = 1 → mf2.date ≤ mf.date :=
  ⟨by decide, latest_by_patient_selects_max_date _ 1 (by decide)⟩

/-! ## Claims C9 and C5: risk-distribution counting and the time window -/

theorem riskStep_bucket_sum (mf : ModelFeatures)
    (acc : (Nat → Nat) × (Nat → Nat) × (Nat → Nat)) (ik : Nat × String) (i : Nat) :
    (riskStep mf acc ik).1 i + (riskStep mf acc ik).2.1 i + (riskStep mf acc ik).2.2 i =
      acc.1 i + acc.2.1 i + acc.2.2 i + (if ik.1 = i then 1 else 0) := by
  rw [riskStep]
  by_cases hi : ik.1 = i
  · subst hi
    by_cases h1 : riskFromValue ((predLookup mf ik.2).getD 0) = "low"
    · simp [h1, bumpI]
      omega
    · by_cases h2 : riskFromValue ((predLookup mf ik.2).getD 0) = "medium"
      · simp [h1, h2, bumpI]
        omega
      · simp [h1, h2, bumpI]
        omega
  · have hi2 : ¬i = ik.1 := fun hh => hi hh.symm
    by_cases h1 : riskFromValue ((predLookup mf ik.2).getD 0) = "low"
    · simp [h1, bumpI, hi, hi2]
    · by_cases h2 : riskFromValue ((predLookup mf ik.2).getD 0) = "medium"
      · simp [h1, h2, bumpI, hi, hi2]
      · simp [h1, h2, bumpI, hi, hi2]

theorem risk_inner_bucket_sum (mf : ModelFeatures) (pairs : List (Nat × String)) :
    ∀ (acc : (Nat → Nat) × (Nat → Nat) × (Nat → Nat)) (i : Nat),
      (pairs.foldl (riskStep mf) acc).1 i + (pairs.foldl (riskStep mf) acc).2.1 i +
          (pairs.foldl (riskStep mf) acc).2.2 i =
        acc.1 i + acc.2.1 i + acc.2.2 i + pairs.countP (fun ik => ik.1 == i) := by
  induction pairs with
  | nil => intro acc i; simp
  | cons ik tl ih =>
    intro acc i
    rw [List.foldl_cons, List.countP_cons, ih, riskStep_bucket_sum]
    by_cases hik : ik.1 = i <;> simp [hik]
    omega

theorem enum_countP_eq_one (i : Nat) (h : i < 10) :
    PCB_KEYS.enum.countP (fun ik => ik.1 == i) = 1 := by
  interval_cases i <;> decide

theorem risk_outer_bucket_sum (l : List ModelFeatures) :
    ∀ (acc : (Nat → Nat) × (Nat → Nat) × (Nat → Nat)) (i : Nat), i < 10 →
      (l.foldl (fun acc2 mf => PCB_KEYS.enum.foldl (riskStep mf) acc2) acc).1 i +
        (l.foldl (fun acc2 mf => PCB_KEYS.enum.foldl (riskStep mf) acc2) acc).2.1 i +
        (l.foldl (fun acc2 mf => PCB_KEYS.enum.foldl (riskStep mf) acc2) acc).2.2 i =
        acc.1 i + acc.2.1 i + acc.2.2 i + l.length := by
  induction l with
  | nil => intro acc i _; simp
  | cons mf tl ih =>
    intro acc i hi
    rw [List.foldl_cons, ih _ i hi, risk_inner_bucket_sum, enum_countP_eq_one i hi,
      List.length_cons]
    omega

theorem getD_map_range {α : Type} (f : Nat → α) (n i : Nat) (d : α) (h : i < n) :
    ((List.range n).map f).getD i d = f i := by
  rw [List.getD_eq_getElem?_getD, List.getElem?_map, List.getElem?_range h]
  rfl

/-- Shared helper: in the risk distribution, the three buckets of any
substance index sum to the number of in-range snapshots. -/
theorem risk_distribution_bucket_sum (mfs : List ModelFeatures)
    (start finish : Int) (i : Nat) (h : i < 10) :
    (fetch_risk_distribution_by_pcb mfs start finish).risk_low.getD i 0 +
      (fetch_risk_distribution_by_pcb mfs start finish).risk_med.getD i 0 +
      (fetch_risk_distribution_by_pcb mfs start finish).risk_high.getD i 0 =
      (inRangeSnaps mfs start finish).length := by
  have hlen : i < PCB_KEYS.length := h
  rw [fetch_risk_distribution_by_pcb]
  dsimp only
  rw [getD_map_range _ _ _ _ hlen, getD_map_range _ _ _ _ hlen, getD_map_range _ _ _ _ hlen]
  have hsum := risk_outer_bucket_sum (inRangeSnaps mfs start finish)
    (fun _ => 0, fun _ => 0, fun _ => 0) i h
  simpa using hsum

/-- C9: for every input and every substance index `i < 10`,
`risk_low[i] + risk_med[i] + risk_high[i]` equals the number of in-range
snapshots — every snapshot is classified into exactly one bucket for every
substance (a missing prediction or missing output map is zero-filled,
`_risk_from_value 0 = "low"`). -/
theorem risk_distribution_counts_every_snapshot (mfs : List ModelFeatures)
    (start finish : Int) (i : Nat) (h : i < 10) :
    (fetch_risk_distribution_by_pcb mfs start finish).risk_low.getD i 0 +
      (fetch_risk_distribution_by_pcb mfs start finish).risk_med.getD i 0 +
      (fetch_risk_distribution_by_pcb mfs start finish).risk_high.getD i 0 =
      (inRangeSnaps mfs start finish).length :=
  risk_distribution_bucket_sum mfs start finish i h

/-- C9 (witness): one snapshot with no output map, window `[0, 10]`,
substance index 0. -/
theorem risk_distribution_counts_every_snapshot_witness :
    0 < 10 ∧
    (fetch_risk_distribution_by_pcb [⟨1, 1, [], none⟩] 0 10).risk_low.getD 0 0 +
      (fetch_risk_distribution_by_pcb [⟨1, 1, [], none⟩] 0 10).risk_med.getD 0 0 +
      (fetch_risk_distribution_by_pcb [⟨1, 1, [], none⟩] 0 10).risk_high.getD 0 0 =
      (inRangeSnaps [⟨1, 1, [], none⟩] 0 10).length :=
  ⟨by decide, risk_distribution_counts_every_snapshot [⟨1, 1, [], none⟩] 0 10 0 (by decide)⟩

/-! ## Generic fold/filter lemmas for the window claim -/

theorem foldl_if_guard {α β : Type} (P : α → Prop) [DecidablePred P]
    (f : β → α → β) (l : List α) :
    ∀ init : β,
      l.foldl (fun acc x => if P x then f acc x else acc) init =
        (l.filter (fun x => decide (P x))).foldl
          (fun acc x => if P x then f acc x else acc) init := by
  induction l with
  | nil => intro init; rfl
  | cons x tl ih =>
    intro init
    by_cases hx : P x
    · simp only [List.foldl_cons, List.filter_cons, hx, decide_True, if_true, ih]
    · simp [List.filter_cons, hx, ih]

theorem foldl_if_guard_and {α β : Type} (P Q : α → Prop) [DecidablePred P] [DecidablePred Q]
    (f : β → α → β) (l : List α) :
    ∀ init : β,
      l.foldl (fun acc x => if P x ∧ Q x then f acc x else acc) init =
        (l.filter (fun x => decide (P x))).foldl
          (fun acc x => if P x ∧ Q x then f acc x else acc) init := by
  induction l with
  | nil => intro init; rfl
  | cons x tl ih =>
    intro init
    by_cases hx : P x
    · simp only [List.foldl_cons, List.filter_cons, hx, decide_True, if_true, ih]
    · have hpq : ¬(P x ∧ Q x) := fun h => hx h.1
      simp [List.filter_cons, hx, hpq, ih]

theorem filter_self_idem {α : Type} (l : List α) (p : α → Bool) :
    (l.filter p).filter p = l.filter p := by
  induction l with
  | nil => rfl
  | cons x tl ih => cases hp : p x <;> simp [List.filter_cons, hp, ih]

theorem filter_comm2 {α : Type} (l : List α) (p q : α → Bool) :
    (l.filter p).filter q = (l.filter q).filter p := by
  induction l with
  | nil => rfl
  | cons x tl ih => cases hp : p x <;> cases hq : q x <;> simp [List.filter_cons, hp, hq, ih]

theorem inRangeSnaps_idem (mfs : List ModelFeatures) (s e : Int) :
    inRangeSnaps (mfs.filter (fun mf => decide (s ≤ mf.date ∧ mf.date ≤ e))) s e =
      inRangeSnaps mfs s e := by
  rw [inRangeSnaps, inRangeSnaps]
  exact filter_self_idem mfs _

/-! ## Claim C5: the resolved window is closed, not half-open -/

/-- C5 (counterexample): a snapshot whose timestamp equals the window end
is counted by the risk distribution (its three buckets at index 0 sum to
1), although `end ≤ end` fails the claimed strict bound. -/
theorem window_boundary_counterexample :
    (fetch_risk_distribution_by_pcb [⟨1, 10, [], none⟩] 0 10).risk_low.getD 0 0 +
      (fetch_risk_distribution_by_pcb [⟨1, 10, [], none⟩] 0 10).risk_med.getD 0 0 +
      (fetch_risk_distribution_by_pcb [⟨1, 10, [], none⟩] 0 10).risk_high.getD 0 0 = 1 ∧
    ¬((10 : Int) < 10) := by
  constructor
  · rw [risk_distribution_bucket_sum _ _ _ 0 (by decide)]
    decide
  · decide

/-- C5 (amended): every aggregation's record filter is the *closed*
interval `start ≤ t ≤ end`: restricting the inputs to records whose
timestamp satisfies it leaves each aggregation unchanged, and the risk
distribution counts exactly the snapshots satisfying it (a record with
`t = end` included). -/
theorem window_is_closed_interval (tests : List LabTest) (mfs : List ModelFeatures)
    (s e : Int) :
    (fetch_risk_distribution_by_pcb mfs s e =
      fetch_risk_distribution_by_pcb
        (mfs.filter (fun mf => decide (s ≤ mf.date ∧ mf.date ≤ e))) s e) ∧
    (fetch_avg_pcb_levels tests mfs s e =
      fetch_avg_pcb_levels
        (tests.filter (fun t => decide (s ≤ testDate t ∧ testDate t ≤ e)))
        (mfs.filter (fun mf => decide (s ≤ mf.date ∧ mf.date ≤ e))) s e) ∧
    (fetch_concentration_series tests mfs s e =
      fetch_concentration_series
        (tests.filter (fun t => decide (s ≤ testDate t ∧ testDate t ≤ e)))
        (mfs.filter (fun mf => decide (s ≤ mf.date ∧ mf.date ≤ e))) s e) ∧
    ((fetch_risk_distribution_by_pcb mfs s e).risk_low.getD 0 0 +
      (fetch_risk_distribution_by_pcb mfs s e).risk_med.getD 0 0 +
      (fetch_risk_distribution_by_pcb mfs s e).risk_high.getD 0 0 =
      (mfs.filter (fun mf => decide (s ≤ mf.date ∧ mf.date ≤ e))).length) := by
  refine ⟨?_, ?_, ?_, ?_⟩
  · simp only [fetch_risk_distribution_by_pcb, inRangeSnaps_idem]
  · have hm :
        ((tests.filter (fun t => decide (s ≤ testDate t ∧ testDate t ≤ e))).filter
            eligStatus).foldl
          (fun acc t =>
            if s ≤ testDate t ∧ testDate t ≤ e then
              (t.pcb_results.getD []).foldl procPcbRow acc
            else acc)
          (fun _ => 0, fun _ => 0) =
        (tests.filter eligStatus).foldl
          (fun acc t =>
            if s ≤ testDate t ∧ testDate t ≤ e then
              (t.pcb_results.getD []).foldl procPcbRow acc
            else acc)
          (fun _ => 0, fun _ => 0) := by
      rw [filter_comm2]
      exact (foldl_if_guard (fun t => s ≤ testDate t ∧ testDate t ≤ e) _ _ _).symm
    simp only [fetch_avg_pcb_levels, inRangeSnaps_idem, hm]
  · have hm : matAvgsOf
        (tests.filter (fun t => decide (s ≤ testDate t ∧ testDate t ≤ e))) s e =
        matAvgsOf tests s e := by
      rw [matAvgsOf, matAvgsOf, filter_comm2]
      exact (foldl_if_guard_and (fun t => s ≤ testDate t ∧ testDate t ≤ e)
        (fun t => t.patient_id ≠ 0) _ _ _).symm
    simp only [fetch_concentration_series, commonIdsOf, matAvgsOf, fetAvgsOf,
      inRangeSnaps_idem, hm]
    rw [← matAvgsOf, ← matAvgsOf, hm]
  · rw [risk_distribution_bucket_sum _ _ _ 0 (by decide)]
    rfl

/-! ## The prediction-accumulation loop and claim C1 -/

theorem predStep_fold_not_mem (mf : ModelFeatures) (ks : List String) :
    ∀ (acc : (String → ℚ) × (String → Nat)) (k : String), k ∉ ks →
      (ks.foldl (predStep mf) acc).1 k = acc.1 k ∧
      (ks.foldl (predStep mf) acc).2 k = acc.2 k := by
  induction ks with
  | nil => intro acc k _; exact ⟨rfl, rfl⟩
  | cons k0 tl ih =>
    intro acc k hk
    have hk0 : k ≠ k0 := fun h => hk (h ▸ List.mem_cons_self k0 tl)
    have hktl : k ∉ tl := fun h => hk (List.mem_cons_of_mem k0 h)
    rw [List.foldl_cons]
    have hstep : (predStep mf acc k0).1 k = acc.1 k ∧ (predStep mf acc k0).2 k = acc.2 k := by
      rw [predStep]
      cases predLookup mf k0 with
      | none => exact ⟨rfl, rfl⟩
      | some v => exact ⟨by simp [bumpQ, hk0], by simp [bumpN, hk0]⟩
    obtain ⟨h1, h2⟩ := ih (predStep mf acc k0) k hktl
    rw [h1, h2, hstep.1, hstep.2]
    exact ⟨rfl, rfl⟩

theorem predStep_fold_mem (mf : ModelFeatures) (ks : List String) :
    ∀ (acc : (String → ℚ) × (String → Nat)) (k : String), ks.Nodup → k ∈ ks →
      (ks.foldl (predStep mf) acc).1 k = acc.1 k + (predLookup mf k).getD 0 ∧
      (ks.foldl (predStep mf) acc).2 k =
        acc.2 k + (if (predLookup mf k).isSome then 1 else 0) := by
  induction ks with
  | nil => intro acc k _ hk; cases hk
  | cons k0 tl ih =>
    intro acc k hnd hk
    have hnd0 : k0 ∉ tl := (List.nodup_cons.mp hnd).1
    have hndtl : tl.Nodup := (List.nodup_cons.mp hnd).2
    rw [List.foldl_cons]
    rcases List.mem_cons.mp hk with rfl | hktl
    · -- the head is the target key; the tail never touches it again
      obtain ⟨h1, h2⟩ := predStep_fold_not_mem mf tl (predStep mf acc k) k hnd0
      rw [h1, h2, predStep]
      cases hlook : predLookup mf k with
      | none => simp [hlook]
      | some v => exact ⟨by simp [bumpQ], by simp [bumpN]⟩
    · -- the head is some other key
      have hk0 : k ≠ k0 := by
        intro h
        subst h
        exact hnd0 hktl
      have hstep : (predStep mf acc k0).1 k = acc.1 k ∧
          (predStep mf acc k0).2 k = acc.2 k := by
        rw [predStep]
        cases predLookup mf k0 with
        | none => exact ⟨rfl, rfl⟩
        | some v => exact ⟨by simp [bumpQ, hk0], by simp [bumpN, hk0]⟩
      obtain ⟨h1, h2⟩ := ih (predStep mf acc k0) k hndtl hktl
      rw [h1, h2, hstep.1, hstep.2]
      exact ⟨rfl, rfl⟩

theorem accumPreds_go (l : List ModelFeatures) :
    ∀ (acc : (String → ℚ) × (String → Nat)) (k : String), k ∈ PCB_KEYS →
      (l.foldl (fun acc2 mf => PCB_KEYS.foldl (predStep mf) acc2) acc).1 k =
        acc.1 k + (predContribs l k).sum ∧
      (l.foldl (fun acc2 mf => PCB_KEYS.foldl (predStep mf) acc2) acc).2 k =
        acc.2 k + (predContribs l k).length := by
  induction l with
  | nil => intro acc k _; simp [predContribs]
  | cons mf tl ih =>
    intro acc k hk
    have hnd : PCB_KEYS.Nodup := by decide
    rw [List.foldl_cons]
    obtain ⟨h1, h2⟩ := ih (PCB_KEYS.foldl (predStep mf) acc) k hk
    obtain ⟨g1, g2⟩ := predStep_fold_mem mf PCB_KEYS acc k hnd hk
    rw [h1, h2, g1, g2]
    cases hlook : predLookup mf k with
    | none =>
      simp [predContribs, List.filterMap_cons, hlook]
    | some v =>
      constructor
      · simp only [predContribs, List.filterMap_cons, hlook, List.sum_cons, hlook,
          Option.getD_some]
        ring
      · simp only [predContribs, List.filterMap_cons, hlook, List.length_cons,
          Option.isSome_some, if_true]
        omega

theorem accumPreds_char (l : List ModelFeatures) (k : String) (hk : k ∈ PCB_KEYS) :
    (accumPreds l).1 k = (predContribs l k).sum ∧
    (accumPreds l).2 k = (predContribs l k).length := by
  obtain ⟨h1, h2⟩ := accumPreds_go l (fun _ => 0, fun _ => 0) k hk
  rw [accumPreds]
  constructor
  · rw [h1]
    exact zero_add _
  · rw [h2]
    exact Nat.zero_add _

/-- Shared helper: the fetal list of `fetch_avg_pcb_levels` is the list of
per-substance means over ALL in-range snapshots (no latest-per-patient
reduction). -/
theorem avg_pcb_fetal_char (tests : List LabTest) (mfs : List ModelFeatures)
    (s e : Int) :
    (fetch_avg_pcb_levels tests mfs s e).fetal =
      PCB_KEYS.map (fun k => ratMean (predContribs (inRangeSnaps mfs s e) k)) := by
  rw [fetch_avg_pcb_levels]
  dsimp only
  apply List.map_congr_left
  intro k hk
  obtain ⟨h1, h2⟩ := accumPreds_char (inRangeSnaps mfs s e) k hk
  rw [h1, h2, ratMean]
  rcases eq_or_ne (predContribs (inRangeSnaps mfs s e) k) [] with hemp | hemp
  · simp [hemp]
  · rw [if_neg hemp, if_neg (by simpa [List.length_eq_zero] using hemp)]

/-- C1 (amended): in `fetch_avg_pcb_levels` the mean predicted fetal level
of each of the ten contaminants is computed from every in-range snapshot
(the full per-patient history), with no latest-per-patient reduction. -/
theorem avg_pcb_fetal_uses_all_snapshots (tests : List LabTest)
    (mfs : List ModelFeatures) (s e : Int) :
    (fetch_avg_pcb_levels tests mfs s e).fetal =
      PCB_KEYS.map (fun k => ratMean (predContribs (inRangeSnaps mfs s e) k)) :=
  avg_pcb_fetal_char tests mfs s e

/-- C1 (counterexample): one patient with two in-range snapshots predicting
1 and 3 for PCB_118.  The function reports the all-snapshot mean 2, while
the latest-per-patient mean prescribed by the claim is 3. -/
theorem avg_pcb_fetal_counterexample :
    (fetch_avg_pcb_levels []
        [⟨1, 1, [], some [("PCB_118", 1)]⟩, ⟨1, 2, [], some [("PCB_118", 3)]⟩]
        0 10).fetal.getD 0 0 = 2 ∧
    specFetalAvgFromLatest
        [⟨1, 1, [], some [("PCB_118", 1)]⟩, ⟨1, 2, [], some [("PCB_118", 3)]⟩]
        0 10 "PCB_118" = 3 ∧
    (2 : ℚ) ≠ 3 := by
  refine ⟨?_, ?_, by norm_num⟩
  · rw [avg_pcb_fetal_char]
    simp only [PCB_KEYS, List.map_cons, List.getD_cons_zero]
    rw [predContribs, inRangeSnaps]
    norm_num [predLookup, lookupS, ratMean, List.filterMap_cons]
    simp
  · rw [specFetalAvgFromLatest, inRangeSnaps]
    norm_num [latestByPatient, lookupA, setk, predContribs, predLookup, lookupS,
      ratMean, List.filterMap_cons]

/-! ## Maternal row matching and claim C10 -/

theorem procPcbRow_fold (rows : List PcbRow) :
    ∀ (acc : (String → ℚ) × (String → Nat)) (k : String), k ∈ PCB_KEYS →
      (rows.foldl procPcbRow acc).1 k = acc.1 k + (rowLevels rows k).sum ∧
      (rows.foldl procPcbRow acc).2 k = acc.2 k + (rowLevels rows k).length := by
  induction rows with
  | nil => intro acc k _; simp [rowLevels]
  | cons r tl ih =>
    intro acc k hk
    rw [List.foldl_cons]
    obtain ⟨h1, h2⟩ := ih (procPcbRow acc r) k hk
    rw [h1, h2]
    cases hlv : r.level with
    | none =>
      simp only [procPcbRow, hlv]
      constructor
      · simp [rowLevels, List.filterMap_cons, hlv, ite_self]
      · simp [rowLevels, List.filterMap_cons, hlv, ite_self]
    | some lv =>
      simp only [procPcbRow, hlv]
      by_cases hname : upStr r.name = k
      · have hmem : upStr r.name ∈ PCB_KEYS := by rw [hname]; exact hk
        rw [if_pos hmem]
        constructor
        · simp [bumpQ, hname, rowLevels, List.filterMap_cons, hlv]
          try ring
        · simp [bumpN, hname, rowLevels, List.filterMap_cons, hlv]
          try omega
      · by_cases hmem : upStr r.name ∈ PCB_KEYS
        · rw [if_pos hmem]
          have hname2 : k ≠ upStr r.name := fun h => hname h.symm
          constructor
          · simp [bumpQ, hname2, rowLevels, List.filterMap_cons, hname, hlv]
          · simp [bumpN, hname2, rowLevels, List.filterMap_cons, hname, hlv]
        · rw [if_neg hmem]
          constructor
          · simp [rowLevels, List.filterMap_cons, hname, hlv]
          · simp [rowLevels, List.filterMap_cons, hname, hlv]

theorem avg_pcb_maternal_go (tl : List LabTest) (s e : Int) :
    ∀ (acc : (String → ℚ) × (String → Nat)) (k : String), k ∈ PCB_KEYS →
      (tl.foldl
        (fun acc2 t =>
          if s ≤ testDate t ∧ testDate t ≤ e then
            (t.pcb_results.getD []).foldl procPcbRow acc2
          else acc2)
        acc).1 k =
        acc.1 k +
          ((tl.filter (fun t => decide (s ≤ testDate t ∧ testDate t ≤ e))).flatMap
            (fun t => rowLevels (t.pcb_results.getD []) k)).sum ∧
      (tl.foldl
        (fun acc2 t =>
          if s ≤ testDate t ∧ testDate t ≤ e then
            (t.pcb_results.getD []).foldl procPcbRow acc2
          else acc2)
        acc).2 k =
        acc.2 k +
          ((tl.filter (fun t => decide (s ≤ testDate t ∧ testDate t ≤ e))).flatMap
            (fun t => rowLevels (t.pcb_results.getD []) k)).length := by
  induction tl with
  | nil => intro acc k _; simp
  | cons t rest ih =>
    intro acc k hk
    rw [List.foldl_cons]
    by_cases hd : s ≤ testDate t ∧ testDate t ≤ e
    · rw [if_pos hd]
      obtain ⟨h1, h2⟩ := ih ((t.pcb_results.getD []).foldl procPcbRow acc) k hk
      obtain ⟨g1, g2⟩ := procPcbRow_fold (t.pcb_results.getD []) acc k hk
      rw [h1, h2, g1, g2]
      constructor
      · rw [List.filter_cons, if_pos (by simpa using hd), List.flatMap_cons,
          List.sum_append]
        ring
      · rw [List.filter_cons, if_pos (by simpa using hd), List.flatMap_cons,
          List.length_append]
        omega
    · rw [if_neg hd]
      obtain ⟨h1, h2⟩ := ih acc k hk
      rw [h1, h2, List.filter_cons, if_neg (by simpa using hd)]
      exact ⟨rfl, rfl⟩

/-- Shared helper: the maternal list of `fetch_avg_pcb_levels` is the list
of per-substance means of the levels of matching rows (uppercased-name
match, missing levels excluded) across eligible in-range tests. -/
theorem avg_pcb_maternal_char (tests : List LabTest) (mfs : List ModelFeatures)
    (s e : Int) :
    (fetch_avg_pcb_levels tests mfs s e).maternal =
      PCB_KEYS.map (fun k => ratMean (maternalLevels tests s e k)) := by
  rw [fetch_avg_pcb_levels]
  dsimp only
  apply List.map_congr_left
  intro k hk
  obtain ⟨h1, h2⟩ := avg_pcb_maternal_go (tests.filter eligStatus) s e
    (fun _ => 0, fun _ => 0) k hk
  rw [h1, h2]
  dsimp only
  rw [maternalLevels, ratMean]
  rcases eq_or_ne (((tests.filter eligStatus).filter
      (fun t => decide (s ≤ testDate t ∧ testDate t ≤ e))).flatMap
      (fun t => rowLevels (t.pcb_results.getD []) k)) [] with hemp | hemp
  · rw [hemp]
    norm_num
  · have hlen : (((tests.filter eligStatus).filter
        (fun t => decide (s ≤ testDate t ∧ testDate t ≤ e))).flatMap
        (fun t => rowLevels (t.pcb_results.getD []) k)).length ≠ 0 :=
      fun h => hemp (List.length_eq_zero.mp h)
    rw [if_neg hemp]
    simp only [zero_add, Nat.zero_add]
    rw [if_neg hlen]

/-- C10: lab-result rows are matched to the ten contaminant keys by
uppercasing their name; a row contributes its level to substance `k`
exactly when `upper(name) = k` and its level is present — so a row named
"pcb_118" feeds PCB_118's maternal average while an unknown name or a
missing level contributes nothing. -/
theorem maternal_rows_matched_by_uppercase (tests : List LabTest)
    (mfs : List ModelFeatures) (s e : Int) :
    ((fetch_avg_pcb_levels tests mfs s e).maternal =
      PCB_KEYS.map (fun k => ratMean (maternalLevels tests s e k))) ∧
    rowLevels [⟨"pcb_118", some 2⟩, ⟨"bogus", some 7⟩, ⟨"PCB_118", none⟩] "PCB_118" =
      [2] :=
  ⟨avg_pcb_maternal_char tests mfs s e, by decide⟩

/-! ## Claim C7: empty inputs give the zero-valued default shapes -/

/-- C7: with all input collections empty, every aggregation returns its
zero-valued default shape — the fixed label lists with every numeric value
0 — for any window; each embedded aggregation is a total function, so no
exception is possible.  (On empty input `fetch_summary`'s `max` over the
ten all-zero averages picks the first key, "PCB_118".) -/
theorem aggregations_empty_default_shape (s e : Int) :
    fetch_avg_pcb_levels [] [] s e =
      ⟨PCB_KEYS, [0, 0, 0, 0, 0, 0, 0, 0, 0, 0], [0, 0, 0, 0, 0, 0, 0, 0, 0, 0]⟩ ∧
    fetch_risk_distribution_by_pcb [] s e =
      ⟨PCB_KEYS, [0, 0, 0, 0, 0, 0, 0, 0, 0, 0], [0, 0, 0, 0, 0, 0, 0, 0, 0, 0],
        [0, 0, 0, 0, 0, 0, 0, 0, 0, 0]⟩ ∧
    fetch_concentration_series [] [] s e = ⟨[], [], []⟩ ∧
    fetch_age_groups_avg [] [] s e = ⟨AGE_LABELS, [0, 0, 0, 0, 0]⟩ ∧
    fetch_smoking_comparison [] s e = ⟨["Non-smokers", "Smokers"], [0, 0]⟩ ∧
    (fetch_correlation_heatmap [] s e).labels = HEAT_VARS ∧
    (fetch_correlation_heatmap [] s e).matrix =
      [[0, 0, 0, 0, 0], [0, 0, 0, 0, 0], [0, 0, 0, 0, 0], [0, 0, 0, 0, 0],
        [0, 0, 0, 0, 0]] ∧
    fetch_summary [] [] s e = ⟨0, 0, "PCB_118", 0, 0, 0⟩ := by
  refine ⟨rfl, rfl, rfl, rfl, rfl, rfl, ?_, ?_⟩
  · simp [fetch_correlation_heatmap, HEAT_VARS, heatSeries, inRangeSnaps, corr,
      round3R]
  · simp [fetch_summary, latestByPatient, inRangeSnaps, keysOf, accumPreds,
      presentSum, maxByVal, PCB_KEYS, lookupS, round3q, ratMean]

/-! ## Claim C8: correlation of a series with itself -/

theorem zip_self_map {α β : Type} (l : List α) (f : α → α → β) :
    (l.zip l).map (fun p => f p.1 p.2) = l.map (fun x => f x x) := by
  induction l with
  | nil => rfl
  | cons x tl ih => simp [List.zip_cons_cons, ih]

theorem round3R_one : round3R 1 = 1 := by
  rw [round3R]
  norm_num

/-- Core lemma: on a non-constant real series, the embedded Pearson helper
applied to the series against itself gives exactly 1. -/
theorem corr_self_core (a : List ℝ) (h : ∃ x ∈ a, ∃ y ∈ a, x ≠ y) :
    corr a a = 1 := by
  obtain ⟨x, hx, y, hy, hxy⟩ := h
  have hne : a ≠ [] := by
    rintro rfl
    cases hx
  have hlen : a.length ≠ 0 := fun h0 => hne (List.length_eq_zero.mp h0)
  rw [corr]
  rw [if_neg (by simp [hlen])]
  dsimp only
  set mx := a.sum / (a.length : ℝ) with hmx
  have hb : ((a.zip a).map (fun p => (p.1 - mx) * (p.2 - mx))).sum =
      (a.map (fun t => (t - mx) ^ 2)).sum := by
    rw [zip_self_map a (fun u v => (u - mx) * (v - mx))]
    congr 1
    apply List.map_congr_left
    intro t _
    ring
  set s := (a.map (fun t => (t - mx) ^ 2)).sum with hs
  have hterm : ∀ z ∈ a.map (fun t => (t - mx) ^ 2), (0 : ℝ) ≤ z := by
    intro z hz
    obtain ⟨t, -, rfl⟩ := List.mem_map.mp hz
    exact sq_nonneg _
  have hspos : 0 < s := by
    have hone : x ≠ mx ∨ y ≠ mx := by
      by_contra hcon
      push_neg at hcon
      exact hxy (hcon.1.trans hcon.2.symm)
    rcases hone with hone | hone
    · have hmem : (x - mx) ^ 2 ∈ a.map (fun t => (t - mx) ^ 2) :=
        List.mem_map_of_mem _ hx
      have h1 : (x - mx) ^ 2 ≤ s := List.single_le_sum hterm _ hmem
      have h2 : 0 < (x - mx) ^ 2 :=
        pow_two_pos_of_ne_zero (sub_ne_zero.mpr hone)
      linarith
    · have hmem : (y - mx) ^ 2 ∈ a.map (fun t => (t - mx) ^ 2) :=
        List.mem_map_of_mem _ hy
      have h1 : (y - mx) ^ 2 ≤ s := List.single_le_sum hterm _ hmem
      have h2 : 0 < (y - mx) ^ 2 :=
        pow_two_pos_of_ne_zero (sub_ne_zero.mpr hone)
      linarith
  have hsqrt : Real.sqrt s ≠ 0 := ne_of_gt (Real.sqrt_pos.mpr hspos)
  rw [hb]
  rw [if_neg (by simp [hsqrt])]
  rw [Real.mul_self_sqrt (le_of_lt hspos)]
  exact div_self (ne_of_gt hspos)

theorem getD_map_lt {α β : Type} (l : List α) (f : α → β) (i : Nat) (d : β)
    (h : i < l.length) :
    (l.map f).getD i d = f (l.get ⟨i, h⟩) := by
  rw [List.getD_eq_getElem?_getD, List.getElem?_map, List.getElem?_eq_getElem h]
  rfl

/-- C8: the Pearson helper applied to any non-constant series against
itself returns exactly 1.0, and for a variable whose built series is
non-constant the heatmap's diagonal entry is 1.0 after the 3-decimal
rounding. -/
theorem corr_self_eq_one :
    (∀ a : List ℝ, (∃ x ∈ a, ∃ y ∈ a, x ≠ y) → corr a a = 1) ∧
    (∀ (mfs : List ModelFeatures) (s e : Int) (i : Nat) (hi : i < 5),
      (∃ x ∈ heatSeries mfs s e (HEAT_VARS.get ⟨i, hi⟩),
        ∃ y ∈ heatSeries mfs s e (HEAT_VARS.get ⟨i, hi⟩), x ≠ y) →
      ((fetch_correlation_heatmap mfs s e).matrix.getD i []).getD i 0 = 1) := by
  refine ⟨corr_self_core, ?_⟩
  intro mfs s e i hi hnc
  have hlen : i < HEAT_VARS.length := hi
  rw [fetch_correlation_heatmap]
  dsimp only
  rw [getD_map_lt _ _ _ _ hlen, getD_map_lt _ _ _ _ hlen]
  rw [corr_self_core _ hnc, round3R_one]

/-- C8 (witness): the series `[0, 1]`, and a two-snapshot input whose
"Smoking" series is `[0, 1]` (variable index 1 of the heatmap). -/
theorem corr_self_eq_one_witness :
    corr [(0 : ℝ), 1] [(0 : ℝ), 1] = 1 ∧
    ((fetch_correlation_heatmap
        [⟨1, 1, [("Smoking", 0)], none⟩, ⟨2, 1, [("Smoking", 1)], none⟩]
        0 10).matrix.getD 1 []).getD 1 0 = 1 := by
  constructor
  · exact corr_self_eq_one.1 [(0 : ℝ), 1]
      ⟨0, by norm_num, 1, by norm_num, by norm_num⟩
  · apply corr_self_eq_one.2
      [⟨1, 1, [("Smoking", 0)], none⟩, ⟨2, 1, [("Smoking", 1)], none⟩] 0 10 1
      (by decide)
    have hser : heatSeries
        [⟨1, 1, [("Smoking", 0)], none⟩, ⟨2, 1, [("Smoking", 1)], none⟩]
        0 10 (HEAT_VARS.get ⟨1, by decide⟩) = [((0 : ℚ) : ℝ), ((1 : ℚ) : ℝ)] := by
      show heatSeries _ 0 10 "Smoking" = _
      simp [heatSeries, inRangeSnaps, heatFeat, featGet, lookupS]
    rw [hser]
    exact ⟨((0 : ℚ) : ℝ), by norm_num, ((1 : ℚ) : ℝ), by norm_num, by norm_num⟩

/-! ## Rounding and claim C2 -/

theorem smokeStep_fold (l : List ModelFeatures) :
    ∀ acc : List ℚ × List ℚ,
      (l.foldl smokeStep acc).1 = acc.1 ++ (l.filter isSmoker).map totalLoad ∧
      (l.foldl smokeStep acc).2 =
        acc.2 ++ (l.filter (fun mf => !isSmoker mf)).map totalLoad := by
  induction l with
  | nil => intro acc; simp
  | cons mf tl ih =>
    intro acc
    rw [List.foldl_cons]
    obtain ⟨h1, h2⟩ := ih (smokeStep acc mf)
    rw [h1, h2, smokeStep]
    by_cases hs : intTrunc ((featGet mf "Smoking").getD 0) = 1
    · rw [if_pos hs]
      constructor
      · rw [List.filter_cons, if_pos (by simp [isSmoker, hs]), List.map_cons]
        simp
      · rw [List.filter_cons, if_neg (by simp [isSmoker, hs])]
    · rw [if_neg hs]
      constructor
      · rw [List.filter_cons, if_neg (by simp [isSmoker, hs])]
      · rw [List.filter_cons, if_pos (by simp [isSmoker, hs]), List.map_cons]
        simp

theorem age_bucket_fold (patients : List Patient) (L : List (Int × ModelFeatures)) :
    ∀ (b : String → List ℚ) (lab : String),
      (L.foldl
        (fun b2 pm =>
          match ageEntry patients pm with
          | some lv => bumpList b2 lv.1 lv.2
          | none => b2)
        b) lab =
      b lab ++ L.filterMap (fun pm =>
        match ageEntry patients pm with
        | some lv => if lv.1 = lab then some lv.2 else none
        | none => none) := by
  induction L with
  | nil => intro b lab; simp
  | cons pm tl ih =>
    intro b lab
    rw [List.foldl_cons]
    cases hE : ageEntry patients pm with
    | none =>
      rw [ih]
      simp [List.filterMap_cons, hE]
    | some lv =>
      rw [ih]
      rw [List.filterMap_cons]
      simp only [hE]
      by_cases hl : lv.1 = lab
      · rw [if_pos hl, bumpList, if_pos hl.symm]
        simp
      · rw [if_neg hl, bumpList, if_neg (fun hh => hl hh.symm)]

/-- Shared helper: the age-group averages are the exact (unrounded) means
of the band members. -/
theorem age_groups_values_char (patients : List Patient) (mfs : List ModelFeatures)
    (s e : Int) :
    (fetch_age_groups_avg patients mfs s e).values =
      AGE_LABELS.map (fun lab => ratMean (ageMembers patients mfs s e lab)) := by
  rw [fetch_age_groups_avg]
  by_cases hL : latestByPatient (inRangeSnaps mfs s e) = []
  · rw [if_pos hL]
    simp [ageMembers, hL, ratMean, AGE_LABELS]
  · rw [if_neg hL]
    dsimp only
    apply List.map_congr_left
    intro lab _
    rw [age_bucket_fold, ageMembers]
    simp

/-- Shared helper: the smoking-comparison values are the exact (unrounded)
means of the two groups' totals. -/
theorem smoking_values_char (mfs : List ModelFeatures) (s e : Int) :
    (fetch_smoking_comparison mfs s e).values =
      [ratMean (((inRangeSnaps mfs s e).filter (fun mf => !isSmoker mf)).map totalLoad),
       ratMean (((inRangeSnaps mfs s e).filter isSmoker).map totalLoad)] := by
  rw [fetch_smoking_comparison]
  obtain ⟨h1, h2⟩ := smokeStep_fold (inRangeSnaps mfs s e) ([], [])
  dsimp only
  rw [h1, h2]
  simp

theorem round3q_idem (q : ℚ) : round3q (round3q q) = round3q q := by
  rw [round3q, round3q]
  have hc : ((round (q * 1000) : ℤ) : ℚ) / 1000 * 1000 = ((round (q * 1000) : ℤ) : ℚ) :=
    div_mul_cancel₀ _ (by norm_num)
  rw [hc, round_intCast]

theorem round3R_idem (x : ℝ) : round3R (round3R x) = round3R x := by
  rw [round3R, round3R]
  have hc : ((round (x * 1000) : ℤ) : ℝ) / 1000 * 1000 = ((round (x * 1000) : ℤ) : ℝ) :=
    div_mul_cancel₀ _ (by norm_num)
  rw [hc, round_intCast]

theorem round3R_zero : round3R 0 = 0 := by
  rw [round3R]
  norm_num

theorem getD_ge {α : Type} (l : List α) (i : Nat) (d : α) (h : l.length ≤ i) :
    l.getD i d = d := by
  rw [List.getD_eq_getElem?_getD, List.getElem?_eq_none h]
  rfl

/-- Shared helper: every entry of the heatmap matrix is a fixed point of
3-decimal rounding (rounding is applied there at the final step). -/
theorem heatmap_entries_rounded (mfs : List ModelFeatures) (s e : Int) (i j : Nat) :
    round3R (((fetch_correlation_heatmap mfs s e).matrix.getD i []).getD j 0) =
      ((fetch_correlation_heatmap mfs s e).matrix.getD i []).getD j 0 := by
  rw [fetch_correlation_heatmap]
  dsimp only
  by_cases hi : i < HEAT_VARS.length
  · rw [getD_map_lt _ _ _ _ hi]
    by_cases hj : j < HEAT_VARS.length
    · rw [getD_map_lt _ _ _ _ hj]
      exact round3R_idem _
    · rw [getD_ge _ _ _ (by simpa using Nat.le_of_not_lt hj)]
      exact round3R_zero
  · have hmap : (HEAT_VARS.map (fun r => HEAT_VARS.map (fun c =>
        round3R (corr (heatSeries mfs s e r) (heatSeries mfs s e c))))).getD i
          ([] : List ℝ) = ([] : List ℝ) :=
      getD_ge _ _ _ (by simpa using Nat.le_of_not_lt hi)
    rw [hmap]
    exact round3R_zero

/-- Shared helper: `fetch_summary`'s rounded numeric outputs are fixed
points of 3-decimal rounding. -/
theorem summary_fields_rounded (patients : List Patient) (mfs : List ModelFeatures)
    (s e : Int) :
    round3q (fetch_summary patients mfs s e).top_pcb_avg =
      (fetch_summary patients mfs s e).top_pcb_avg ∧
    round3q (fetch_summary patients mfs s e).avg_fetal_pcb =
      (fetch_summary patients mfs s e).avg_fetal_pcb ∧
    round3R (fetch_summary patients mfs s e).correlation =
      (fetch_summary patients mfs s e).correlation := by
  simp only [fetch_summary]
  refine ⟨round3q_idem _, round3q_idem _, ?_⟩
  split
  · rw [summaryCorr]
    exact round3R_idem _
  · exact round3R_zero

/-- C2 (counterexample): three in-range non-smokers with total predicted
loads 1, 0, 0.  The smoking comparison returns the exact mean 1/3, which is
not a 3-decimal value, so the averages are NOT rounded at the final step. -/
theorem smoking_average_not_rounded_counterexample :
    (fetch_smoking_comparison
        [⟨1, 1, [], some [("PCB_118", 1)]⟩, ⟨2, 1, [], none⟩, ⟨3, 1, [], none⟩]
        0 10).values.getD 0 0 = 1 / 3 ∧
    round3q (1 / 3) ≠ 1 / 3 := by
  constructor
  · rw [smoking_values_char]
    simp [inRangeSnaps, isSmoker, intTrunc, featGet, lookupS, totalLoad,
      predLookup, PCB_KEYS, ratMean]
  · norm_num [round3q, round_eq]

/-- C2 (amended): 3-decimal rounding is applied, only at the final
formatting step, to the correlation outputs (every heatmap matrix entry and
`fetch_summary`'s correlation) and to `fetch_summary`'s rounded scalar
averages — but the maternal and fetal average lists, the age-group
averages, and the smoking-comparison averages are returned as exact,
unrounded means. -/
theorem rounding_applied_only_to_final_correlations (patients : List Patient)
    (tests : List LabTest) (mfs : List ModelFeatures) (s e : Int) :
    ((fetch_avg_pcb_levels tests mfs s e).maternal =
      PCB_KEYS.map (fun k => ratMean (maternalLevels tests s e k))) ∧
    ((fetch_avg_pcb_levels tests mfs s e).fetal =
      PCB_KEYS.map (fun k => ratMean (predContribs (inRangeSnaps mfs s e) k))) ∧
    ((fetch_age_groups_avg patients mfs s e).values =
      AGE_LABELS.map (fun lab => ratMean (ageMembers patients mfs s e lab))) ∧
    ((fetch_smoking_comparison mfs s e).values =
      [ratMean (((inRangeSnaps mfs s e).filter (fun mf => !isSmoker mf)).map totalLoad),
       ratMean (((inRangeSnaps mfs s e).filter isSmoker).map totalLoad)]) ∧
    (∀ i j : Nat,
      round3R (((fetch_correlation_heatmap mfs s e).matrix.getD i []).getD j 0) =
        ((fetch_correlation_heatmap mfs s e).matrix.getD i []).getD j 0) ∧
    (round3q (fetch_summary patients mfs s e).top_pcb_avg =
      (fetch_summary patients mfs s e).top_pcb_avg ∧
     round3q (fetch_summary patients mfs s e).avg_fetal_pcb =
      (fetch_summary patients mfs s e).avg_fetal_pcb ∧
     round3R (fetch_summary patients mfs s e).correlation =
      (fetch_summary patients mfs s e).correlation) :=
  ⟨avg_pcb_maternal_char tests mfs s e, avg_pcb_fetal_char tests mfs s e,
   age_groups_values_char patients mfs s e, smoking_values_char mfs s e,
   fun i j => heatmap_entries_rounded mfs s e i j,
   summary_fields_rounded patients mfs s e⟩

/-! ## Claim C3: the concentration series -/

theorem mem_keysOf_setk {α : Type} (l : List (Int × α)) (k : Int) (v : α) (q : Int) :
    q ∈ keysOf (setk l k v) ↔ q = k ∨ q ∈ keysOf l := by
  induction l with
  | nil => simp [setk, keysOf]
  | cons hd tl ih =>
    obtain ⟨a, b⟩ := hd
    by_cases hak : a = k
    · subst hak
      simp [setk, keysOf]
    · simp only [setk, if_neg hak, keysOf, List.map_cons, List.mem_cons]
      rw [keysOf] at ih
      rw [ih]
      tauto

theorem setk_keys_nodup {α : Type} (l : List (Int × α)) (k : Int) (v : α)
    (h : (keysOf l).Nodup) : (keysOf (setk l k v)).Nodup := by
  induction l with
  | nil => simp [setk, keysOf]
  | cons hd tl ih =>
    obtain ⟨a, b⟩ := hd
    rw [keysOf, List.map_cons, List.nodup_cons] at h
    by_cases hak : a = k
    · subst hak
      rw [setk, if_pos rfl, keysOf, List.map_cons, List.nodup_cons]
      exact h
    · rw [setk, if_neg hak, keysOf, List.map_cons, List.nodup_cons]
      refine ⟨?_, ih h.2⟩
      rw [show (setk tl k v).map (·.1) = keysOf (setk tl k v) from rfl,
        mem_keysOf_setk]
      rintro (rfl | hmem)
      · exact hak rfl
      · exact h.1 hmem

theorem latestByPatient_keys_nodup (l : List ModelFeatures) :
    (keysOf (latestByPatient l)).Nodup := by
  rw [latestByPatient]
  have hgen :
      ∀ (ll : List ModelFeatures) (acc : List (Int × ModelFeatures)),
        (keysOf acc).Nodup →
        (keysOf (ll.foldl
          (fun by_ mf =>
            match lookupA by_ mf.patient_id with
            | none => setk by_ mf.patient_id mf
            | some cur => if cur.date < mf.date then setk by_ mf.patient_id mf else by_)
          acc)).Nodup := by
    intro ll
    induction ll with
    | nil => intro acc h; exact h
    | cons mf tl ih =>
      intro acc h
      rw [List.foldl_cons]
      apply ih
      cases lookupA acc mf.patient_id with
      | none => exact setk_keys_nodup acc _ _ h
      | some cur =>
        dsimp only
        by_cases hlt : cur.date < mf.date
        · rw [if_pos hlt]
          exact setk_keys_nodup acc _ _ h
        · rw [if_neg hlt]
          exact h
  exact hgen l [] (by simp [keysOf])

theorem matAvgsOf_lookup (tests : List LabTest) (s e p : Int) :
    lookupA (matAvgsOf tests s e) p =
      (((tests.filter eligStatus).filter (testContrib s e p)).getLast?).map
        (fun t => (measuredLevels t).sum / (measuredLevels t).length) := by
  rw [matAvgsOf]
  induction (tests.filter eligStatus) using List.reverseRecOn with
  | nil => rfl
  | append_singleton l t ih =>
    rw [List.foldl_append, List.foldl_cons, List.foldl_nil, List.filter_append]
    by_cases hc : (s ≤ testDate t ∧ testDate t ≤ e) ∧ t.patient_id ≠ 0
    · rw [if_pos hc]
      by_cases hlev : measuredLevels t ≠ []
      · rw [if_pos hlev, lookupA_setk]
        by_cases hp : t.patient_id = p
        · rw [if_pos hp]
          have hct : testContrib s e p t = true := by
            simp only [testContrib, decide_eq_true_eq]
            exact ⟨hc.1, hc.2, hlev, hp⟩
          rw [show List.filter (testContrib s e p) [t] = [t] by simp [hct],
            List.getLast?_concat]
          rfl
        · rw [if_neg hp]
          have hct : testContrib s e p t = false := by
            simp only [testContrib, decide_eq_false_iff_not]
            rintro ⟨-, -, -, hpp⟩
            exact hp hpp
          rw [show List.filter (testContrib s e p) [t] = [] by simp [hct],
            List.append_nil]
          exact ih
      · rw [if_neg hlev]
        have hct : testContrib s e p t = false := by
          simp only [testContrib, decide_eq_false_iff_not]
          rintro ⟨-, -, hll, -⟩
          exact hlev hll
        rw [show List.filter (testContrib s e p) [t] = [] by simp [hct],
          List.append_nil]
        exact ih
    · rw [if_neg hc]
      have hct : testContrib s e p t = false := by
        simp only [testContrib, decide_eq_false_iff_not]
        rintro ⟨h1, h2, -, -⟩
        exact hc ⟨h1, h2⟩
      rw [show List.filter (testContrib s e p) [t] = [] by simp [hct],
        List.append_nil]
      exact ih

theorem fetfold_not_mem (L : List (Int × ModelFeatures)) :
    ∀ (acc : List (Int × ℚ)) (p : Int), p ∉ keysOf L →
      lookupA (L.foldl
        (fun acc2 pm =>
          if positivePreds pm.2 ≠ [] then
            setk acc2 pm.1 ((positivePreds pm.2).sum / (positivePreds pm.2).length)
          else acc2)
        acc) p = lookupA acc p := by
  induction L with
  | nil => intro acc p _; rfl
  | cons qm tl ih =>
    intro acc p hp
    have hq : qm.1 ≠ p := by
      intro h
      exact hp (by simp [keysOf, h])
    have hptl : p ∉ keysOf tl := by
      intro h
      exact hp (by simp [keysOf] at h ⊢; exact Or.inr h)
    rw [List.foldl_cons]
    by_cases hnz : positivePreds qm.2 ≠ []
    · rw [if_pos hnz, ih _ p hptl, lookupA_setk, if_neg hq]
    · rw [if_neg hnz, ih _ p hptl]

theorem fetfold_mem (L : List (Int × ModelFeatures)) :
    ∀ (acc : List (Int × ℚ)) (p : Int) (mf : ModelFeatures), (keysOf L).Nodup →
      lookupA L p = some mf →
      lookupA (L.foldl
        (fun acc2 pm =>
          if positivePreds pm.2 ≠ [] then
            setk acc2 pm.1 ((positivePreds pm.2).sum / (positivePreds pm.2).length)
          else acc2)
        acc) p =
        (if positivePreds mf ≠ [] then
          some ((positivePreds mf).sum / (positivePreds mf).length)
        else lookupA acc p) := by
  induction L with
  | nil => intro acc p mf _ h; cases h
  | cons qm tl ih =>
    intro acc p mf hnd hl
    obtain ⟨q, m⟩ := qm
    rw [keysOf, List.map_cons, List.nodup_cons] at hnd
    rw [List.foldl_cons]
    by_cases hq : q = p
    · subst hq
      have hm : m = mf := by
        rw [lookupA, if_pos rfl] at hl
        exact Option.some_injective _ hl
      subst hm
      have hq_not : q ∉ keysOf tl := hnd.1
      by_cases hnz : positivePreds m ≠ []
      · rw [if_pos hnz, fetfold_not_mem tl _ q hq_not, lookupA_setk, if_pos rfl,
          if_pos hnz]
      · rw [if_neg hnz, fetfold_not_mem tl _ q hq_not, if_neg hnz]
    · have hltl : lookupA tl p = some mf := by
        rw [lookupA, if_neg hq] at hl
        exact hl
      by_cases hnz : positivePreds m ≠ []
      · rw [if_pos hnz]
        rw [ih _ p mf hnd.2 hltl]
        by_cases hnzmf : positivePreds mf ≠ []
        · rw [if_pos hnzmf, if_pos hnzmf]
        · rw [if_neg hnzmf, if_neg hnzmf, lookupA_setk, if_neg hq]
      · rw [if_neg hnz]
        exact ih _ p mf hnd.2 hltl

theorem fetAvgsOf_lookup (mfs : List ModelFeatures) (s e p : Int) :
    lookupA (fetAvgsOf mfs s e) p =
      (match lookupA (latestByPatient (inRangeSnaps mfs s e)) p with
        | some mf =>
          if positivePreds mf ≠ [] then
            some ((positivePreds mf).sum / (positivePreds mf).length)
          else none
        | none => none) := by
  rw [fetAvgsOf]
  cases hl : lookupA (latestByPatient (inRangeSnaps mfs s e)) p with
  | none =>
    have hp : p ∉ keysOf (latestByPatient (inRangeSnaps mfs s e)) :=
      (lookupA_eq_none_iff _ _).mp hl
    rw [fetfold_not_mem _ _ _ hp]
    rfl
  | some mf =>
    rw [fetfold_mem _ _ _ mf (latestByPatient_keys_nodup _) hl]
    dsimp only
    by_cases hnz : positivePreds mf ≠ []
    · rw [if_pos hnz, if_pos hnz]
    · rw [if_neg hnz, if_neg hnz]
      rfl

theorem mem_insertSorted (x a : Int) (l : List Int) :
    a ∈ insertSorted x l ↔ a = x ∨ a ∈ l := by
  induction l with
  | nil => simp [insertSorted]
  | cons y tl ih =>
    rw [insertSorted]
    by_cases hxy : x ≤ y
    · simp [hxy]
    · rw [if_neg hxy]
      simp only [List.mem_cons, ih]
      tauto

theorem mem_sortInts (a : Int) (l : List Int) : a ∈ sortInts l ↔ a ∈ l := by
  induction l with
  | nil => simp [sortInts]
  | cons x tl ih =>
    rw [sortInts, List.foldr_cons, mem_insertSorted]
    rw [sortInts] at ih
    rw [ih]
    simp

/-- C3 (amended): the output has one index-aligned point pair exactly for
each patient (nonzero id) having both (a) an eligible in-range lab test
with at least one non-missing level and (b) a latest in-range snapshot
with at least one strictly positive predicted value; the maternal value
is the per-test mean of the patient's LAST qualifying test in input order
(each test overwrites the previous), the fetal value is the mean of the
latest snapshot's strictly positive predictions, and a patient present on
only one side does not appear (inner join on patient id). -/
theorem conc_series_inner_join (tests : List LabTest) (mfs : List ModelFeatures)
    (s e : Int) :
    (∀ p : Int,
      p ∈ commonIdsOf tests mfs s e ↔
        ((∃ t ∈ tests, eligStatus t ∧ (s ≤ testDate t ∧ testDate t ≤ e) ∧
            t.patient_id ≠ 0 ∧ measuredLevels t ≠ [] ∧ t.patient_id = p) ∧
         (∃ mf, lookupA (latestByPatient (inRangeSnaps mfs s e)) p = some mf ∧
            positivePreds mf ≠ []))) ∧
    (∀ p : Int, lookupA (matAvgsOf tests s e) p =
      (((tests.filter eligStatus).filter (testContrib s e p)).getLast?).map
        (fun t => (measuredLevels t).sum / (measuredLevels t).length)) ∧
    (∀ p : Int, lookupA (fetAvgsOf mfs s e) p =
      (match lookupA (latestByPatient (inRangeSnaps mfs s e)) p with
        | some mf =>
          if positivePreds mf ≠ [] then
            some ((positivePreds mf).sum / (positivePreds mf).length)
          else none
        | none => none)) ∧
    ((fetch_concentration_series tests mfs s e).labels.length =
      (commonIdsOf tests mfs s e).length ∧
     (fetch_concentration_series tests mfs s e).maternal_series =
      (commonIdsOf tests mfs s e).map
        (fun p => (lookupA (matAvgsOf tests s e) p).getD 0) ∧
     (fetch_concentration_series tests mfs s e).fetal_series =
      (commonIdsOf tests mfs s e).map
        (fun p => (lookupA (fetAvgsOf mfs s e) p).getD 0)) := by
  refine ⟨?_, matAvgsOf_lookup tests s e, fetAvgsOf_lookup mfs s e,
    by simp [fetch_concentration_series], rfl, rfl⟩
  intro p
  rw [commonIdsOf, mem_sortInts, List.mem_filter]
  simp only [decide_eq_true_eq]
  apply and_congr
  · rw [← lookupA_isSome_iff]
    constructor
    · rintro ⟨v, hv⟩
      rw [matAvgsOf_lookup] at hv
      obtain ⟨t, hlast, -⟩ := Option.map_eq_some'.mp hv
      have htmem := List.mem_of_getLast?_eq_some hlast
      rw [List.mem_filter] at htmem
      obtain ⟨htmem2, hct⟩ := htmem
      rw [List.mem_filter] at htmem2
      simp only [testContrib, decide_eq_true_eq] at hct
      exact ⟨t, htmem2.1, by simpa using htmem2.2, hct.1, hct.2.1, hct.2.2.1,
        hct.2.2.2⟩
    · rintro ⟨t, htmem, helig, hdate, hpid0, hlev, hpid⟩
      have hmem2 : t ∈ (tests.filter eligStatus).filter (testContrib s e p) := by
        rw [List.mem_filter]
        refine ⟨List.mem_filter.mpr ⟨htmem, by simpa using helig⟩, ?_⟩
        simp only [testContrib, decide_eq_true_eq]
        exact ⟨hdate, hpid0, hlev, hpid⟩
      cases hlast : ((tests.filter eligStatus).filter (testContrib s e p)).getLast? with
      | none =>
        rw [List.getLast?_eq_none_iff] at hlast
        rw [hlast] at hmem2
        cases hmem2
      | some t0 =>
        refine ⟨(measuredLevels t0).sum / (measuredLevels t0).length, ?_⟩
        rw [matAvgsOf_lookup, hlast]
        rfl
  · rw [← lookupA_isSome_iff]
    constructor
    · rintro ⟨v, hv⟩
      rw [fetAvgsOf_lookup] at hv
      cases hl : lookupA (latestByPatient (inRangeSnaps mfs s e)) p with
      | none =>
        rw [hl] at hv
        cases hv
      | some mf =>
        rw [hl] at hv
        dsimp only at hv
        by_cases hnz : positivePreds mf ≠ []
        · exact ⟨mf, rfl, hnz⟩
        · rw [if_neg hnz] at hv
          cases hv
    · rintro ⟨mf, hl, hnz⟩
      refine ⟨(positivePreds mf).sum / (positivePreds mf).length, ?_⟩
      rw [fetAvgsOf_lookup, hl]
      dsimp only
      rw [if_pos hnz]

/-- C3 (counterexample): patient 1 has two eligible in-range tests with
levels [2] and [4] and a latest snapshot predicting 1 for PCB_118;
patient 2 has one test with level [5] and a latest snapshot predicting -1.
The claim's reading yields pairs (3, 1) for patient 1 (mean of all levels)
and (5, -1) for patient 2 (non-zero prediction −1 kept); the code returns
only patient 1 with maternal value 4 (last test overwrites) and drops
patient 2 (no strictly positive prediction). -/
theorem conc_series_counterexample :
    fetch_concentration_series
        [⟨1, "released", 1, none, some [⟨"PCB_118", some 2⟩]⟩,
         ⟨1, "released", 2, none, some [⟨"PCB_118", some 4⟩]⟩,
         ⟨2, "released", 1, none, some [⟨"PCB_118", some 5⟩]⟩]
        [⟨1, 1, [], some [("PCB_118", 1)]⟩, ⟨2, 1, [], some [("PCB_118", -1)]⟩]
        0 10 = ⟨["P1"], [4], [1]⟩ ∧
    specConcentrationSeries
        [⟨1, "released", 1, none, some [⟨"PCB_118", some 2⟩]⟩,
         ⟨1, "released", 2, none, some [⟨"PCB_118", some 4⟩]⟩,
         ⟨2, "released", 1, none, some [⟨"PCB_118", some 5⟩]⟩]
        [⟨1, 1, [], some [("PCB_118", 1)]⟩, ⟨2, 1, [], some [("PCB_118", -1)]⟩]
        0 10 = ⟨["P1", "P2"], [3, 5], [1, -1]⟩ ∧
    (⟨["P1"], [4], [1]⟩ : ConcSeriesOut) ≠ ⟨["P1", "P2"], [3, 5], [1, -1]⟩ := by
  refine ⟨?_, ?_, by decide⟩
  · rw [fetch_concentration_series]
    have hcommon : commonIdsOf
        [⟨1, "released", 1, none, some [⟨"PCB_118", some 2⟩]⟩,
         ⟨1, "released", 2, none, some [⟨"PCB_118", some 4⟩]⟩,
         ⟨2, "released", 1, none, some [⟨"PCB_118", some 5⟩]⟩]
        [⟨1, 1, [], some [("PCB_118", 1)]⟩, ⟨2, 1, [], some [("PCB_118", -1)]⟩]
        0 10 = [1] := by
      rw [commonIdsOf, matAvgsOf, fetAvgsOf]
      simp [eligStatus, testDate, measuredLevels, inRangeSnaps,
        latestByPatient, lookupA, setk, keysOf, positivePreds, predLookup,
        lookupS, PCB_KEYS, sortInts, insertSorted]
    rw [hcommon, ConcSeriesOut.mk.injEq]
    refine ⟨by decide, ?_, ?_⟩
    · rw [matAvgsOf]
      simp [eligStatus, testDate, measuredLevels, inRangeSnaps, lookupA, setk]
    · rw [fetAvgsOf]
      simp [inRangeSnaps, latestByPatient, lookupA, setk, positivePreds,
        predLookup, lookupS, PCB_KEYS]
  · rw [specConcentrationSeries, ConcSeriesOut.mk.injEq]
    simp [eligStatus, testDate, measuredLevels, inRangeSnaps,
      latestByPatient, lookupA, setk, keysOf, positivePreds, predLookup,
      lookupS, PCB_KEYS, sortInts, insertSorted, dedupInts]
    exact ⟨by decide, by norm_num⟩

end Materna
